import Mathlib

/-!
Shallow embedding of the `amshan` HAN-port decoding pipeline.

* `src/han/dlms_tinetz.py` — M-Bus data-link framing, DLMS application-layer
  ciphering header, and the streaming `DlmsTinetzFrameReader.read` state
  machine, embedded as pure functions over byte lists (`List Nat`, one entry
  per byte).  The `while` loop of `read` is embedded as a fuel-indexed
  iteration `runF`; a fuel of `buffer.length + 1` is always sufficient, since
  every non-terminal iteration strictly shrinks the buffer (proved below).
* `src/han/kaifa_tinetz.py` — COSEM notification-body decoding.  The leaf
  field parsers live in `han/cosem.py`, which is not part of the sources;
  those leaves are modelled from the spec and carry a
  `Modelled from the spec:` marker in their doc comment.
-/

namespace AmsHan

/-! ## M-Bus data-link header (`MBusDataLinkHeader`, dlms_tinetz.py lines 15-23) -/

structure MBusHeader where
  lField : Nat
  cField : Nat
deriving DecidableEq, Repr

/-- Embedding of `MBusDataLinkHeader.parse`: start marker `0x68`, length byte,
duplicate length byte (checked equal), start marker again, control field
restricted to `{0x53, 0x73}`, address field `0xFF`.  Any missing byte or
failing check is a structural `ConstructError`, modelled as `none`.  Parsing
ignores bytes after the sixth, as `construct.Struct.parse` does. -/
def parseMBusDataLinkHeader (b : List Nat) : Option MBusHeader :=
  match b with
  | s1 :: l :: l2 :: s2 :: c :: a :: _ =>
    if s1 = 0x68 ∧ l2 = l ∧ s2 = 0x68 ∧ (c = 0x53 ∨ c = 0x73) ∧ a = 0xFF then
      some ⟨l, c⟩
    else none
  | _ => none

/-! ## Full physical frame (`MBusDataLinkLayer`, dlms_tinetz.py lines 31-57) -/

inductive MBusError where
  | checksum
  | structural
deriving DecidableEq, Repr

instance {ε α : Type} [DecidableEq ε] [DecidableEq α] : DecidableEq (Except ε α) :=
  fun x y =>
    match x, y with
    | .error a, .error b =>
      if h : a = b then isTrue (by rw [h]) else isFalse (by simp [h])
    | .ok a, .ok b =>
      if h : a = b then isTrue (by rw [h]) else isFalse (by simp [h])
    | .error _, .ok _ => isFalse (by simp)
    | .ok _, .error _ => isFalse (by simp)

structure MBusData where
  lField : Nat
  cField : Nat
  ciField : Nat
  data : List Nat
deriving DecidableEq, Repr

/-- Embedding of `MBusDataLinkLayer.parse`: header, then transport layer
(CI field restricted to `range(0x00, 0x1F)`, i.e. `0x00..0x1E`, fixed service
access points `0x01` and `0x67`), then `L - 5` payload bytes, a checksum byte
that must equal the sum of the payload bytes plus C, A, CI, STSAP and DTSAP
modulo 256, and the stop character `0x16`.  Field checks happen in stream
order, so a checksum mismatch (`ChecksumError`, modelled `.checksum`) is only
reported once everything before the checksum byte parsed, and the stop
character is only examined when the checksum matched.  All other failures are
generic `ConstructError`s, modelled `.structural`.  A negative payload length
(`L < 5`) makes the `construct.Bytes` read fail, hence `.structural`. -/
def parseMBusDataLinkLayer (b : List Nat) : Except MBusError MBusData :=
  match parseMBusDataLinkHeader b with
  | none => .error .structural
  | some h =>
    match b with
    | _ :: _ :: _ :: _ :: _ :: _ :: ci :: stsap :: dtsap :: rest =>
      if ci ≤ 0x1E ∧ stsap = 0x01 ∧ dtsap = 0x67 then
        if 5 ≤ h.lField ∧ h.lField - 5 ≤ rest.length then
          let data := rest.take (h.lField - 5)
          match rest[h.lField - 5]? with
          | some chk =>
            if chk = (data.sum + h.cField + 0xFF + ci + 0x01 + 0x67) % 256 then
              match rest[h.lField - 4]? with
              | some stp => if stp = 0x16 then .ok ⟨h.lField, h.cField, ci, data⟩
                            else .error .structural
              | none => .error .structural
            else .error .checksum
          | none => .error .structural
        else .error .structural
      else .error .structural
    | _ => .error .structural

/-! ## DLMS application layer (`DLMSApplicationLayer`, dlms_tinetz.py lines 59-69) -/

structure DLMSData where
  length : Nat
  systemTitle : List Nat
  frameCounter : List Nat
  encPayload : List Nat
deriving DecidableEq, Repr

/-- Tail of `DLMSApplicationLayer.parse` after the length field: security
control byte `0x21`, 4-byte frame counter, and the remaining bytes as the
greedy encrypted payload. -/
def parseDLMSAfterLengthField (len : Nat) (title : List Nat) (d : List Nat) :
    Option DLMSData :=
  match d with
  | scb :: c1 :: c2 :: c3 :: c4 :: payload =>
    if scb = 0x21 then some ⟨len, title, [c1, c2, c3, c4], payload⟩ else none
  | _ => none

/-- Embedding of `DLMSApplicationLayer.parse`: ciphering service byte `0xDB`,
system title length byte `0x08`, 8 title bytes, then the variable-width length
field: the next byte is peeked; if it equals `0x82` it is consumed (the
discarded `Length_Prefix`) and the length is the following two bytes big
endian, otherwise that single byte itself is the length.  `construct.Peek`
yields `None` on an exhausted stream and the subsequent `Int8ub` then fails,
so an empty remainder is a parse failure. -/
def parseDLMSApplicationLayer (d : List Nat) : Option DLMSData :=
  match d with
  | db :: tl :: t1 :: t2 :: t3 :: t4 :: t5 :: t6 :: t7 :: t8 :: rest =>
    if db = 0xDB ∧ tl = 0x08 then
      match rest with
      | v :: rest2 =>
        if v = 0x82 then
          match rest2 with
          | hi :: lo :: rest3 =>
            parseDLMSAfterLengthField (hi * 256 + lo) [t1, t2, t3, t4, t5, t6, t7, t8] rest3
          | _ => none
        else parseDLMSAfterLengthField v [t1, t2, t3, t4, t5, t6, t7, t8] rest2
      | [] => none
    else none
  | _ => none

/-! ## `DlmsTinetzFrame` (dlms_tinetz.py lines 72-102) -/

/-- Embedding of `DlmsTinetzFrame`.  `key` is the unhexlified key bytes,
`declaredLength` is the Python integer `dlms_data.Length - 5` (which can be
negative, hence `Int`), `frameData` is the accumulated ciphertext. -/
structure DlmsTinetzFrame where
  key : List Nat
  declaredLength : Int
  systemTitle : List Nat
  frameCounter : List Nat
  frameData : List Nat
deriving DecidableEq, Repr

/-- `DlmsTinetzFrame.extend`. -/
def DlmsTinetzFrame.extend (f : DlmsTinetzFrame) (chunk : List Nat) : DlmsTinetzFrame :=
  { f with frameData := f.frameData ++ chunk }

/-- `DlmsTinetzFrame.is_valid`: accumulated length equals the declared
ciphertext length. -/
def DlmsTinetzFrame.is_valid (f : DlmsTinetzFrame) : Bool :=
  (f.frameData.length : Int) == f.declaredLength

/-- Modelled from the spec: the AES-GCM decryption of `Crypto.Cipher.AES`
(an external library, not repository code) is abstracted as an arbitrary
keystream `ks key nonce index`; `cipher.decrypt` in counter mode XORs the
keystream byte with each ciphertext byte, preserving length, and performs no
authentication-tag verification, so it can never fail. -/
def gcmDecrypt (ks : List Nat → List Nat → Nat → Nat) (key nonce ct : List Nat) :
    List Nat :=
  ct.mapIdx fun i c => c ^^^ ks key nonce i

/-- Embedding of `DlmsTinetzFrame.payload`: the nonce is the 8-byte system
title concatenated with the 4-byte frame counter; the ciphertext is decrypted
with AES-GCM under `key` and that nonce (keystream abstracted as `ks`). -/
def DlmsTinetzFrame.payload (ks : List Nat → List Nat → Nat → Nat)
    (f : DlmsTinetzFrame) : List Nat :=
  gcmDecrypt ks f.key (f.systemTitle ++ f.frameCounter) f.frameData

/-! ## `_ReaderBuffer.trim_buffer_to_start_character_or_end`
(dlms_tinetz.py lines 185-190) -/

/-- Suffix of `l` starting at its first `0x68` byte, or `[]` if there is
none. -/
def dropToMarker : List Nat → List Nat
  | [] => []
  | x :: xs => if x = 0x68 then x :: xs else dropToMarker xs

/-- Embedding of `trim_buffer_to_start_character_or_end`:
`bytearray.find(0x68, 1)` locates the first `0x68` at position `≥ 1`; the
buffer is sliced from there, or cleared when there is none.  Equivalently:
drop the first byte, then drop everything before the next `0x68`. -/
def trim_buffer_to_start_character_or_end (b : List Nat) : List Nat :=
  match b with
  | [] => []
  | _ :: rest => dropToMarker rest

/-! ## `DlmsTinetzFrameReader.read` (dlms_tinetz.py lines 105-167) -/

/-- Reader state: the unhexlified key, the `_ReaderBuffer` contents, and the
pending `_frame`. -/
structure ReaderState where
  key : List Nat
  buffer : List Nat
  frame : Option DlmsTinetzFrame
deriving DecidableEq, Repr

/-- The CI-field dispatch of `read` (dlms_tinetz.py lines 132-145): with no
pending frame and CI low nibble zero, parse the application layer header from
the payload and open a pending frame (a `ConstructError` there, modelled
`none`, escapes to the outer handler); with a pending frame and nonzero low
nibble, append the payload; otherwise leave the pending frame unchanged. -/
def processStep1 (key : List Nat) (fr : Option DlmsTinetzFrame) (md : MBusData) :
    Option (Option DlmsTinetzFrame) :=
  match fr with
  | none =>
    if md.ciField &&& 0x0F = 0 then
      match parseDLMSApplicationLayer md.data with
      | none => none
      | some d =>
        some (some ⟨key, (d.length : Int) - 5, d.systemTitle, d.frameCounter, d.encPayload⟩)
    else some none
  | some f =>
    if md.ciField &&& 0x0F ≠ 0 then some (some (f.extend md.data)) else some (some f)

/-- The per-physical-frame processing of `read` (dlms_tinetz.py lines
132-153): CI dispatch, then, if CI bit `0x10` is set and a frame is pending,
emit it when `is_valid` holds and discard it otherwise, clearing the pending
slot either way.  Result: `none` for an escaped `ConstructError`, otherwise
the emitted frames and the new pending slot. -/
def processFrame (key : List Nat) (fr : Option DlmsTinetzFrame) (md : MBusData) :
    Option (List DlmsTinetzFrame × Option DlmsTinetzFrame) :=
  match processStep1 key fr md with
  | none => none
  | some fr1 =>
    match fr1 with
    | some f =>
      if md.ciField &&& 0x10 = 0x10 then
        some ((if f.is_valid then [f] else []), none)
      else some ([], some f)
    | none => some ([], none)

inductive StepResult where
  | halt
  | cont (out : List DlmsTinetzFrame) (st : ReaderState)
deriving DecidableEq, Repr

/-- One iteration of the `while self._buffer.size >= 6` loop of `read`
(dlms_tinetz.py lines 123-165):

* fewer than 6 buffered bytes — leave the loop (`halt`);
* data-link header fails structurally — clear the pending frame and trim the
  buffer to the next start character (outer `except construct.ConstructError`);
* header parses but the physical frame (`L + 6` bytes) is not fully buffered —
  leave the loop, keeping buffer and pending frame (the `else: break`);
* full parse raises `ChecksumError` — clear the pending frame, still trim the
  buffer past the physical frame (inner `except`, then `trim_buffer_to_pos`);
* full parse fails structurally, or the application-layer parse inside
  `processStep1` fails — outer handler: clear pending frame, trim to marker;
* otherwise process the frame and trim the buffer past it. -/
def stepOnce (st : ReaderState) : StepResult :=
  if st.buffer.length < 6 then .halt
  else
    match parseMBusDataLinkHeader st.buffer with
    | none => .cont [] ⟨st.key, trim_buffer_to_start_character_or_end st.buffer, none⟩
    | some h =>
      if st.buffer.length < h.lField + 6 then .halt
      else
        match parseMBusDataLinkLayer st.buffer with
        | .error .checksum => .cont [] ⟨st.key, st.buffer.drop (h.lField + 6), none⟩
        | .error .structural =>
          .cont [] ⟨st.key, trim_buffer_to_start_character_or_end st.buffer, none⟩
        | .ok md =>
          match processFrame st.key st.frame md with
          | none => .cont [] ⟨st.key, trim_buffer_to_start_character_or_end st.buffer, none⟩
          | some r => .cont r.1 ⟨st.key, st.buffer.drop (h.lField + 6), r.2⟩

/-- Fuel-indexed iteration of `stepOnce`, accumulating emitted frames in
order.  A fuel of `buffer.length + 1` always suffices (each `cont` strictly
shrinks the buffer), so `runF` with that fuel is the loop of `read`. -/
def runF : Nat → ReaderState → List DlmsTinetzFrame × ReaderState
  | 0, st => ([], st)
  | fuel + 1, st =>
    match stepOnce st with
    | .halt => ([], st)
    | .cont out st' =>
      let r := runF fuel st'
      (out ++ r.1, r.2)

/-- Embedding of `DlmsTinetzFrameReader.read`: extend the buffer with the
chunk, then drive the loop to completion. -/
def read (st : ReaderState) (chunk : List Nat) : List DlmsTinetzFrame × ReaderState :=
  runF (st.buffer.length + chunk.length + 1) ⟨st.key, st.buffer ++ chunk, st.frame⟩

/-- A sequence of `read` calls on one reader, with the emitted frames
concatenated in call order. -/
def readAll (st : ReaderState) (chunks : List (List Nat)) :
    List DlmsTinetzFrame × ReaderState :=
  match chunks with
  | [] => ([], st)
  | c :: cs =>
    let r := read st c
    let r2 := readAll r.2 cs
    (r.1 ++ r2.1, r2.2)

/-- A fresh `DlmsTinetzFrameReader(key_hex)`: empty buffer, no pending
frame. -/
def freshReader (key : List Nat) : ReaderState := ⟨key, [], none⟩

/-- A concrete single-segment physical frame: `L = 21`, control `0x53`,
CI `0x10` (low nibble 0, last-segment bit set), payload carrying a DLMS
ciphering header with all-zero system title and frame counter, declared
length 5 and empty ciphertext, correct checksum 211 and stop byte. -/
def goodFrame : List Nat :=
  [0x68, 21, 21, 0x68, 0x53, 0xFF, 0x10, 0x01, 0x67,
   0xDB, 0x08, 0, 0, 0, 0, 0, 0, 0, 0, 5, 0x21, 0, 0, 0, 0,
   211, 0x16]

/-- `goodFrame` with its checksum byte corrupted to `0`. -/
def badFrame : List Nat :=
  [0x68, 21, 21, 0x68, 0x53, 0xFF, 0x10, 0x01, 0x67,
   0xDB, 0x08, 0, 0, 0, 0, 0, 0, 0, 0, 5, 0x21, 0, 0, 0, 0,
   0, 0x16]

/-- The logical frame assembled from `goodFrame`. -/
def emittedGood : DlmsTinetzFrame :=
  ⟨[], 0, [0, 0, 0, 0, 0, 0, 0, 0], [0, 0, 0, 0], []⟩

/-- Statement of the split property for one buffer: running the loop over
`b ++ e` emits the frames of running it over `b` followed by the frames of
running the left-over state with `e` appended (used to decompose a single
`read` of concatenated chunks into successive `read`s). -/
def SplitStatement (b key : List Nat) (fr : Option DlmsTinetzFrame)
    (e : List Nat) (f₁ f₂ f₃ : Nat) : Prop :=
  b.length + e.length < f₁ → b.length < f₂ →
  (runF f₂ ⟨key, b, fr⟩).2.buffer.length + e.length < f₃ →
  (runF f₁ ⟨key, b ++ e, fr⟩).1 =
    (runF f₂ ⟨key, b, fr⟩).1 ++
      (runF f₃ ⟨(runF f₂ ⟨key, b, fr⟩).2.key,
                (runF f₂ ⟨key, b, fr⟩).2.buffer ++ e,
                (runF f₂ ⟨key, b, fr⟩).2.frame⟩).1

/-- Induction package for `SplitStatement` over the buffer length. -/
def SplitIH (n : Nat) : Prop :=
  ∀ b : List Nat, b.length ≤ n → ∀ (key : List Nat) (fr : Option DlmsTinetzFrame)
    (e : List Nat) (f₁ f₂ f₃ : Nat), SplitStatement b key fr e f₁ f₂ f₃

/-- Frames stored or emitted by the reader carry an 8-byte system title and a
4-byte frame counter. -/
def ShapeOK (g : DlmsTinetzFrame) : Prop :=
  g.systemTitle.length = 8 ∧ g.frameCounter.length = 4

/-! ## COSEM notification body (`kaifa_tinetz.py`)

The element grammar of `kaifa_tinetz.py` is built from leaf parsers in
`han/cosem.py`, which is not among the sources; those leaves are modelled
from the spec (§4.5) with the standard DLMS `CommonDataTypes` tag values.
The structural layer — `SimpleElement` with weight `_cnt = 2`,
`StructElement` with weight `_cnt = 1`, `Element` as a `Select` trying the
simple shape first, and `NotificationBodyObisElements` with its
declared-field-count check — follows the source. -/

/-- Modelled from the spec: tag values of `cosem.CommonDataTypes`
(standard DLMS common data types; `han/cosem.py` is not in the sources). -/
def structureTag : Nat := 0x02

def octetStringTag : Nat := 0x09

def visibleStringTag : Nat := 0x0A

def doubleLongUnsignedTag : Nat := 0x06

def longTag : Nat := 0x10

def longUnsignedTag : Nat := 0x12

def integerTag : Nat := 0x0F

def enumTag : Nat := 0x16

/-- A decoded COSEM value: text, raw octets (covering the date-time/text
alternatives of the octet-string content, whose distinction affects neither
structural weight nor numeric scaling), or a scaled rational number. -/
inductive CosemValue where
  | text (bytes : List Nat)
  | octets (bytes : List Nat)
  | num (q : ℚ)
deriving DecidableEq, Repr

/-- Big-endian value of a byte list. -/
def beNat (l : List Nat) : Nat := l.foldl (fun a x => a * 256 + x) 0

/-- Two's-complement reading of one byte (`construct.Int8sb`). -/
def toSigned8 (x : Nat) : Int := if x < 128 then (x : Int) else (x : Int) - 256

/-- Two's-complement reading of a 16-bit value (`construct.Int16sb`). -/
def toSigned16 (x : Nat) : Int := if x < 32768 then (x : Int) else (x : Int) - 65536

/-- Modelled from the spec: `cosem.ObisCodeOctedStringField` — an OBIS code
is an octet string of exactly 6 raw bytes (octet-string tag, length byte 6,
six bytes). -/
def parseObis (b : List Nat) : Option (List Nat × List Nat) :=
  match b with
  | t :: n :: rest =>
    if t = octetStringTag ∧ n = 6 ∧ 6 ≤ rest.length then
      some (rest.take 6, rest.drop 6)
    else none
  | _ => none

/-- Modelled from the spec: `cosem.Field` — one directly-typed value read per
its own type tag (the subset used by the TINETZ layout: visible strings,
octet strings, and the three integer widths). -/
def parseField (b : List Nat) : Option (CosemValue × List Nat) :=
  match b with
  | t :: rest =>
    if t = visibleStringTag then
      match rest with
      | n :: rest2 =>
        if n ≤ rest2.length then some (.text (rest2.take n), rest2.drop n) else none
      | [] => none
    else if t = octetStringTag then
      match rest with
      | n :: rest2 =>
        if n ≤ rest2.length then some (.octets (rest2.take n), rest2.drop n) else none
      | [] => none
    else if t = doubleLongUnsignedTag then
      match rest with
      | b1 :: b2 :: b3 :: b4 :: rest2 => some (.num ((beNat [b1, b2, b3, b4] : ℚ)), rest2)
      | _ => none
    else if t = longTag then
      match rest with
      | b1 :: b2 :: rest2 => some (.num ((toSigned16 (b1 * 256 + b2) : ℚ)), rest2)
      | _ => none
    else if t = longUnsignedTag then
      match rest with
      | b1 :: b2 :: rest2 => some (.num (((b1 * 256 + b2 : Nat) : ℚ)), rest2)
      | _ => none
    else none
  | [] => none

/-- One decoded list item: OBIS code, exposed value, and structural weight
(`_cnt`). -/
structure ObisElement where
  obis : List Nat
  value : CosemValue
  cnt : Nat
deriving DecidableEq, Repr

/-- Embedding of `SimpleElement` (kaifa_tinetz.py lines 12-18): an OBIS
octet-string field followed by one directly-typed value; structural weight
`_cnt = 2`.  The two `construct.Peek`s never fail and impose no
constraint. -/
def parseSimpleElement (b : List Nat) : Option (ObisElement × List Nat) :=
  match parseObis b with
  | some (obis, r1) =>
    match parseField r1 with
    | some (v, r2) => some (⟨obis, v, 2⟩, r2)
    | none => none
  | none => none

/-- Modelled from the spec: `cosem.ScalerUnitField` — a two-element structure
holding a signed scale exponent (integer tag) and a unit code (enum tag). -/
def parseScalerUnit (b : List Nat) : Option (Int × Nat × List Nat) :=
  match b with
  | t :: n :: ti :: s :: te :: u :: rest =>
    if t = structureTag ∧ n = 2 ∧ ti = integerTag ∧ te = enumTag then
      some (toSigned8 s, u, rest)
    else none
  | _ => none

/-- Embedding of `StructElement` (kaifa_tinetz.py lines 21-49): structure
tag, a length byte that is read but not validated, an OBIS field, a content
type tag, then content switched on that tag — visible string as text, octet
string as raw octets (date-time first, then text, both kept as the octets
here), and the numeric tags double-long-unsigned / long / long-unsigned as an
unscaled integer of the tag's width followed by a scaler-and-unit
sub-structure with exposed `value = unscaled * 10 ^ scale`.  Any other
content tag has no case in the `construct.Switch` and fails.  Structural
weight `_cnt = 1`. -/
def parseStructElement (b : List Nat) : Option (ObisElement × List Nat) :=
  match b with
  | t :: _len :: rest =>
    if t = structureTag then
      match parseObis rest with
      | some (obis, r1) =>
        match r1 with
        | ct :: r2 =>
          if ct = visibleStringTag then
            match r2 with
            | n :: r3 =>
              if n ≤ r3.length then some (⟨obis, .text (r3.take n), 1⟩, r3.drop n)
              else none
            | [] => none
          else if ct = octetStringTag then
            match r2 with
            | n :: r3 =>
              if n ≤ r3.length then some (⟨obis, .octets (r3.take n), 1⟩, r3.drop n)
              else none
            | [] => none
          else if ct = doubleLongUnsignedTag then
            match r2 with
            | b1 :: b2 :: b3 :: b4 :: r3 =>
              match parseScalerUnit r3 with
              | some (sc, _u, r4) =>
                some (⟨obis, .num ((beNat [b1, b2, b3, b4] : ℚ) * 10 ^ sc), 1⟩, r4)
              | none => none
            | _ => none
          else if ct = longTag then
            match r2 with
            | b1 :: b2 :: r3 =>
              match parseScalerUnit r3 with
              | some (sc, _u, r4) =>
                some (⟨obis, .num ((toSigned16 (b1 * 256 + b2) : ℚ) * 10 ^ sc), 1⟩, r4)
              | none => none
            | _ => none
          else if ct = longUnsignedTag then
            match r2 with
            | b1 :: b2 :: r3 =>
              match parseScalerUnit r3 with
              | some (sc, _u, r4) =>
                some (⟨obis, .num (((b1 * 256 + b2 : Nat) : ℚ) * 10 ^ sc), 1⟩, r4)
              | none => none
            | _ => none
          else none
        | [] => none
      | none => none
    else none
  | _ => none

/-- Embedding of `Element = construct.Select(SimpleElement, StructElement)`:
try the simple shape first, fall back to the structured shape. -/
def parseElement (b : List Nat) : Option (ObisElement × List Nat) :=
  match parseSimpleElement b with
  | some r => some r
  | none => parseStructElement b

/-- `construct.GreedyRange(Element)`: parse elements until one fails, keeping
the unconsumed remainder.  Fuel-indexed; a fuel of `b.length` suffices since
every parsed element consumes at least one byte. -/
def parseElementsF : Nat → List Nat → List ObisElement × List Nat
  | 0, b => ([], b)
  | fuel + 1, b =>
    match parseElement b with
    | none => ([], b)
    | some (e, rest) =>
      let r := parseElementsF fuel rest
      (e :: r.1, r.2)

/-- Embedding of `NotificationBodyObisElements` (kaifa_tinetz.py lines
55-60): structure tag, a one-byte declared field count, a greedy range of
elements, then the check that the declared count equals the sum of the
items' structural weights (`_cnt`); a mismatch is a decode failure
(`construct.Check` raising), never a silent truncation. -/
def NotificationBodyObisElements (b : List Nat) : Option (List ObisElement) :=
  match b with
  | t :: n :: rest =>
    if t = structureTag then
      let r := parseElementsF rest.length rest
      if n = (r.1.map ObisElement.cnt).sum then some r.1 else none
    else none
  | _ => none

/-- Abstract notification-body items used to state round-trip properties:
a simple element carrying a visible-string value, or a structured element
carrying a scaled numeric value. -/
inductive ItemSpec where
  | simpleText (obis : List Nat) (s : List Nat)
  | structNum (obis : List Nat) (tag : Nat) (raw : List Nat) (scaler unit : Nat)
deriving DecidableEq, Repr

/-- Wire well-formedness of an item: 6-byte OBIS code, string length and
scaler/unit fitting one byte, and raw width matching the numeric tag. -/
def ItemSpec.wellFormed : ItemSpec → Prop
  | .simpleText obis s => obis.length = 6 ∧ s.length ≤ 255
  | .structNum obis tag raw scaler unit =>
      obis.length = 6 ∧ scaler ≤ 255 ∧ unit ≤ 255 ∧
        ((tag = doubleLongUnsignedTag ∧ raw.length = 4) ∨
          (tag = longTag ∧ raw.length = 2) ∨
          (tag = longUnsignedTag ∧ raw.length = 2))

/-- Wire encoding of an item per the grammar above. -/
def ItemSpec.encode : ItemSpec → List Nat
  | .simpleText obis s =>
      octetStringTag :: 6 :: (obis ++ (visibleStringTag :: s.length :: s))
  | .structNum obis tag raw scaler unit =>
      structureTag :: 2 :: octetStringTag :: 6 ::
        (obis ++ (tag :: (raw ++ [structureTag, 2, integerTag, scaler, enumTag, unit])))

/-- Structural weight of an item (2 for simple, 1 for structured). -/
def ItemSpec.weight : ItemSpec → Nat
  | .simpleText _ _ => 2
  | .structNum _ _ _ _ _ => 1

/-- The element the decoder is expected to produce for an item. -/
def ItemSpec.toElement : ItemSpec → ObisElement
  | .simpleText obis s => ⟨obis, .text s, 2⟩
  | .structNum obis tag raw sc _ =>
      ⟨obis,
        .num ((if tag = longTag then (toSigned16 (beNat raw) : ℚ) else (beNat raw : ℚ))
          * 10 ^ toSigned8 sc), 1⟩

/-- Concatenated wire encoding of a list of items. -/
def encodeItems (items : List ItemSpec) : List Nat :=
  (items.map ItemSpec.encode).flatten

/-! # Theorems -/

/-! ## Basic facts about `dropToMarker` and the trim operations -/

theorem dropToMarker_length_le (l : List Nat) : (dropToMarker l).length ≤ l.length := by
  induction l with
  | nil => simp [dropToMarker]
  | cons x xs ih =>
    simp only [dropToMarker]
    split
    · simp
    · exact le_trans ih (by simp)

theorem trim_length_lt {b : List Nat} (h : b ≠ []) :
    (trim_buffer_to_start_character_or_end b).length < b.length := by
  cases b with
  | nil => simp at h
  | cons x rest =>
    simp only [trim_buffer_to_start_character_or_end, List.length_cons]
    exact Nat.lt_succ_of_le (dropToMarker_length_le rest)

theorem dropToMarker_append_of_forall {j : List Nat} (h : ∀ x ∈ j, x ≠ 0x68)
    (l : List Nat) : dropToMarker (j ++ l) = dropToMarker l := by
  induction j with
  | nil => rfl
  | cons x xs ih =>
    simp only [List.cons_append, dropToMarker]
    rw [if_neg (h x (by simp))]
    exact ih fun y hy => h y (by simp [hy])

theorem dropToMarker_eq_nil {l : List Nat} (h : ∀ x ∈ l, x ≠ 0x68) :
    dropToMarker l = [] := by
  have h2 := dropToMarker_append_of_forall h []
  rwa [List.append_nil] at h2

theorem dropToMarker_append_of_mem {l : List Nat} (h : 0x68 ∈ l) (e : List Nat) :
    dropToMarker (l ++ e) = dropToMarker l ++ e := by
  induction l with
  | nil => simp at h
  | cons x xs ih =>
    simp only [List.cons_append, dropToMarker]
    by_cases hx : x = 0x68
    · simp [hx]
    · rw [if_neg hx, if_neg hx]
      rcases List.mem_cons.mp h with h1 | h2
      · exact absurd h1.symm hx
      · exact ih h2

theorem exists_markerFree_decomp (l : List Nat) :
    ∃ j, (∀ x ∈ j, x ≠ 0x68) ∧ l = j ++ dropToMarker l := by
  induction l with
  | nil => exact ⟨[], by simp, rfl⟩
  | cons x xs ih =>
    by_cases hx : x = 0x68
    · refine ⟨[], by simp, ?_⟩
      simp [dropToMarker, hx]
    · obtain ⟨j, hj, hd⟩ := ih
      refine ⟨x :: j, ?_, ?_⟩
      · intro y hy
        rcases List.mem_cons.mp hy with h1 | h2
        · exact h1 ▸ hx
        · exact hj y h2
      · simp only [dropToMarker, if_neg hx, List.cons_append]
        exact congrArg (x :: ·) hd

/-! ## Characterization of `stepOnce` -/

theorem stepOnce_of_short {st : ReaderState} (h : st.buffer.length < 6) :
    stepOnce st = .halt := by
  simp only [stepOnce, if_pos h]

theorem stepOnce_of_header_none {st : ReaderState} (h6 : 6 ≤ st.buffer.length)
    (hp : parseMBusDataLinkHeader st.buffer = none) :
    stepOnce st =
      .cont [] ⟨st.key, trim_buffer_to_start_character_or_end st.buffer, none⟩ := by
  simp only [stepOnce, if_neg (by omega : ¬ st.buffer.length < 6), hp]

theorem stepOnce_of_incomplete {st : ReaderState} {h : MBusHeader}
    (h6 : 6 ≤ st.buffer.length) (hp : parseMBusDataLinkHeader st.buffer = some h)
    (hlen : st.buffer.length < h.lField + 6) :
    stepOnce st = .halt := by
  simp only [stepOnce, if_neg (by omega : ¬ st.buffer.length < 6), hp, if_pos hlen]

theorem stepOnce_of_checksum {st : ReaderState} {h : MBusHeader}
    (h6 : 6 ≤ st.buffer.length) (hp : parseMBusDataLinkHeader st.buffer = some h)
    (hlen : h.lField + 6 ≤ st.buffer.length)
    (hl : parseMBusDataLinkLayer st.buffer = .error .checksum) :
    stepOnce st = .cont [] ⟨st.key, st.buffer.drop (h.lField + 6), none⟩ := by
  simp only [stepOnce, if_neg (by omega : ¬ st.buffer.length < 6), hp,
    if_neg (by omega : ¬ st.buffer.length < h.lField + 6), hl]

theorem stepOnce_of_structural {st : ReaderState} {h : MBusHeader}
    (h6 : 6 ≤ st.buffer.length) (hp : parseMBusDataLinkHeader st.buffer = some h)
    (hlen : h.lField + 6 ≤ st.buffer.length)
    (hl : parseMBusDataLinkLayer st.buffer = .error .structural) :
    stepOnce st =
      .cont [] ⟨st.key, trim_buffer_to_start_character_or_end st.buffer, none⟩ := by
  simp only [stepOnce, if_neg (by omega : ¬ st.buffer.length < 6), hp,
    if_neg (by omega : ¬ st.buffer.length < h.lField + 6), hl]

theorem stepOnce_of_ok_none {st : ReaderState} {h : MBusHeader} {md : MBusData}
    (h6 : 6 ≤ st.buffer.length) (hp : parseMBusDataLinkHeader st.buffer = some h)
    (hlen : h.lField + 6 ≤ st.buffer.length)
    (hl : parseMBusDataLinkLayer st.buffer = .ok md)
    (hf : processFrame st.key st.frame md = none) :
    stepOnce st =
      .cont [] ⟨st.key, trim_buffer_to_start_character_or_end st.buffer, none⟩ := by
  simp only [stepOnce, if_neg (by omega : ¬ st.buffer.length < 6), hp,
    if_neg (by omega : ¬ st.buffer.length < h.lField + 6), hl, hf]

theorem stepOnce_of_ok {st : ReaderState} {h : MBusHeader} {md : MBusData}
    {r : List DlmsTinetzFrame × Option DlmsTinetzFrame}
    (h6 : 6 ≤ st.buffer.length) (hp : parseMBusDataLinkHeader st.buffer = some h)
    (hlen : h.lField + 6 ≤ st.buffer.length)
    (hl : parseMBusDataLinkLayer st.buffer = .ok md)
    (hf : processFrame st.key st.frame md = some r) :
    stepOnce st = .cont r.1 ⟨st.key, st.buffer.drop (h.lField + 6), r.2⟩ := by
  simp only [stepOnce, if_neg (by omega : ¬ st.buffer.length < 6), hp,
    if_neg (by omega : ¬ st.buffer.length < h.lField + 6), hl, hf]

theorem stepOnce_cont_length_lt {st st' : ReaderState} {out : List DlmsTinetzFrame}
    (h : stepOnce st = .cont out st') : st'.buffer.length < st.buffer.length := by
  have hne : st.buffer ≠ [] := by
    intro hnil
    rw [stepOnce_of_short (by simp [hnil])] at h
    exact StepResult.noConfusion h
  unfold stepOnce at h
  split at h
  · exact StepResult.noConfusion h
  · rename_i h6
    split at h
    · cases h
      exact trim_length_lt hne
    · rename_i hd hp
      split at h
      · exact StepResult.noConfusion h
      · rename_i hlen
        split at h
        · cases h
          simp only [List.length_drop]
          omega
        · cases h
          exact trim_length_lt hne
        · split at h
          · cases h
            exact trim_length_lt hne
          · cases h
            simp only [List.length_drop]
            omega

theorem stepOnce_cont_key {st st' : ReaderState} {out : List DlmsTinetzFrame}
    (h : stepOnce st = .cont out st') : st'.key = st.key := by
  unfold stepOnce at h
  split at h
  · exact StepResult.noConfusion h
  · split at h
    · cases h; rfl
    · split at h
      · exact StepResult.noConfusion h
      · split at h
        · cases h; rfl
        · cases h; rfl
        · split at h
          · cases h; rfl
          · cases h; rfl

/-! ## Basic facts about `runF` -/

theorem runF_of_halt {st : ReaderState} (h : stepOnce st = .halt) (f : Nat) :
    runF f st = ([], st) := by
  cases f with
  | zero => rfl
  | succ n => simp only [runF, h]

theorem runF_succ_cont {st st' : ReaderState} {out : List DlmsTinetzFrame}
    (h : stepOnce st = .cont out st') (f : Nat) :
    runF (f + 1) st = (out ++ (runF f st').1, (runF f st').2) := by
  simp only [runF, h]

theorem runF_fuel_eq {f₁ f₂ : Nat} {st : ReaderState}
    (h₁ : st.buffer.length < f₁) (h₂ : st.buffer.length < f₂) :
    runF f₁ st = runF f₂ st := by
  induction f₁ generalizing f₂ st with
  | zero => omega
  | succ n ih =>
    cases f₂ with
    | zero => omega
    | succ m =>
      cases hs : stepOnce st with
      | halt => rw [runF_of_halt hs, runF_of_halt hs]
      | cont out st' =>
        have hlt := stepOnce_cont_length_lt hs
        rw [runF_succ_cont hs, runF_succ_cont hs,
          @ih m st' (by omega) (by omega)]

theorem runF_final_halt {f : Nat} {st : ReaderState} (h : st.buffer.length < f) :
    stepOnce (runF f st).2 = .halt := by
  induction f generalizing st with
  | zero => omega
  | succ n ih =>
    cases hs : stepOnce st with
    | halt => rw [runF_of_halt hs]; exact hs
    | cont out st' =>
      have hlt := stepOnce_cont_length_lt hs
      rw [runF_succ_cont hs]
      exact ih (by omega)

theorem runF_key (f : Nat) (st : ReaderState) : (runF f st).2.key = st.key := by
  induction f generalizing st with
  | zero => rfl
  | succ n ih =>
    cases hs : stepOnce st with
    | halt => rw [runF_of_halt hs]
    | cont out st' =>
      rw [runF_succ_cont hs]
      rw [ih st', stepOnce_cont_key hs]

/-! ## Prefix stability of the structural parsers -/

theorem exists_cons6 {b : List Nat} (h : 6 ≤ b.length) :
    ∃ a1 a2 a3 a4 a5 a6 r, b = a1 :: a2 :: a3 :: a4 :: a5 :: a6 :: r := by
  rcases b with _ | ⟨a1, _ | ⟨a2, _ | ⟨a3, _ | ⟨a4, _ | ⟨a5, _ | ⟨a6, r⟩⟩⟩⟩⟩⟩
  all_goals simp only [List.length_nil, List.length_cons] at h
  all_goals first
  | omega
  | exact ⟨a1, a2, a3, a4, a5, a6, r, rfl⟩

theorem exists_cons9 {b : List Nat} (h : 9 ≤ b.length) :
    ∃ a1 a2 a3 a4 a5 a6 a7 a8 a9 r,
      b = a1 :: a2 :: a3 :: a4 :: a5 :: a6 :: a7 :: a8 :: a9 :: r := by
  rcases b with _ | ⟨a1, _ | ⟨a2, _ | ⟨a3, _ | ⟨a4, _ | ⟨a5, _ | ⟨a6, _ | ⟨a7, _ | ⟨a8,
    _ | ⟨a9, r⟩⟩⟩⟩⟩⟩⟩⟩⟩
  all_goals simp only [List.length_nil, List.length_cons] at h
  all_goals first
  | omega
  | exact ⟨a1, a2, a3, a4, a5, a6, a7, a8, a9, r, rfl⟩

theorem parseMBusDataLinkHeader_append {b : List Nat} (h : 6 ≤ b.length)
    (e : List Nat) : parseMBusDataLinkHeader (b ++ e) = parseMBusDataLinkHeader b := by
  obtain ⟨a1, a2, a3, a4, a5, a6, r, rfl⟩ := exists_cons6 h
  rfl

theorem parseMBusDataLinkHeader_cons_ne {x : Nat} {l : List Nat} (hx : x ≠ 0x68) :
    parseMBusDataLinkHeader (x :: l) = none := by
  rcases l with _ | ⟨a2, _ | ⟨a3, _ | ⟨a4, _ | ⟨a5, _ | ⟨a6, r⟩⟩⟩⟩⟩ <;>
    simp [parseMBusDataLinkHeader, hx]

theorem parseMBusDataLinkLayer_structural_of_small {b : List Nat} {h : MBusHeader}
    (hp : parseMBusDataLinkHeader b = some h) (hL : h.lField < 5) :
    parseMBusDataLinkLayer b = .error .structural := by
  unfold parseMBusDataLinkLayer
  simp only [hp]
  split
  · split
    · rw [if_neg (by omega)]
    · rfl
  · rfl

theorem parseMBusDataLinkLayer_append {b : List Nat} {h : MBusHeader}
    (hp : parseMBusDataLinkHeader b = some h) (hlen : h.lField + 6 ≤ b.length)
    (e : List Nat) : parseMBusDataLinkLayer (b ++ e) = parseMBusDataLinkLayer b := by
  have h6 : 6 ≤ b.length := by omega
  have hp2 : parseMBusDataLinkHeader (b ++ e) = some h := by
    rw [parseMBusDataLinkHeader_append h6 e, hp]
  by_cases hL : 5 ≤ h.lField
  · have h9 : 9 ≤ b.length := by omega
    obtain ⟨a1, a2, a3, a4, a5, a6, a7, a8, a9, r, rfl⟩ := exists_cons9 h9
    have hrl : h.lField + 6 ≤ 9 + r.length := by
      simp only [List.length_cons] at hlen; omega
    simp only [List.cons_append] at hp2 ⊢
    simp only [parseMBusDataLinkLayer, hp, hp2]
    by_cases hci : a7 ≤ 0x1E ∧ a8 = 0x01 ∧ a9 = 0x67
    · rw [if_pos hci, if_pos hci]
      have hr5 : h.lField - 5 ≤ r.length := by omega
      have hr5' : h.lField - 5 < r.length := by omega
      have hr4' : h.lField - 4 < r.length := by omega
      rw [if_pos ⟨hL, by simp only [List.length_append]; omega⟩, if_pos ⟨hL, hr5⟩]
      rw [List.take_append_of_le_length hr5]
      rw [List.getElem?_append, if_pos hr5', List.getElem?_append, if_pos hr4']
    · rw [if_neg hci, if_neg hci]
  · rw [parseMBusDataLinkLayer_structural_of_small hp2 (by omega),
      parseMBusDataLinkLayer_structural_of_small hp (by omega)]

/-! ## Trim versus append -/

theorem trim_append_of_mem {x : Nat} {rest : List Nat} (h : 0x68 ∈ rest) (e : List Nat) :
    trim_buffer_to_start_character_or_end (x :: rest ++ e)
      = trim_buffer_to_start_character_or_end (x :: rest) ++ e := by
  simp only [List.cons_append, trim_buffer_to_start_character_or_end]
  exact dropToMarker_append_of_mem h e

theorem trim_append_of_not_mem {x : Nat} {rest : List Nat}
    (h : ∀ y ∈ rest, y ≠ 0x68) (e : List Nat) :
    trim_buffer_to_start_character_or_end (x :: rest ++ e) = dropToMarker e := by
  simp only [List.cons_append, trim_buffer_to_start_character_or_end]
  exact dropToMarker_append_of_forall h e

/-! ## The buffer-divergence simulation relation

After the reader clears its whole buffer (no `0x68` beyond position 0) while a
single-shot run instead trims into bytes that only arrive later in the chunked
run, the two buffers differ by an inert, marker-free junk prefix on one side;
both pending frames are `none`.  `Rel` captures exactly this reachable
divergence; it is preserved by appending the same chunk to both sides and
by running the loop, which emits identical frames on both sides. -/

def junk (a b : List Nat) : Prop :=
  ∃ j, j ≠ [] ∧ (∀ x ∈ j, x ≠ 0x68) ∧ a = j ++ b

def Rel (s t : ReaderState) : Prop :=
  s.key = t.key ∧ s.frame = t.frame ∧
    (s.buffer = t.buffer ∨
      (s.frame = none ∧ (junk s.buffer t.buffer ∨ junk t.buffer s.buffer)))

theorem Rel.refl (s : ReaderState) : Rel s s := ⟨rfl, rfl, Or.inl rfl⟩

theorem Rel.symm {s t : ReaderState} (h : Rel s t) : Rel t s := by
  obtain ⟨hk, hf, hb⟩ := h
  refine ⟨hk.symm, hf.symm, ?_⟩
  rcases hb with hb | ⟨hn, hb | hb⟩
  · exact Or.inl hb.symm
  · exact Or.inr ⟨hf ▸ hn, Or.inr hb⟩
  · exact Or.inr ⟨hf ▸ hn, Or.inl hb⟩

theorem Rel.append {s t : ReaderState} (h : Rel s t) (c : List Nat) :
    Rel ⟨s.key, s.buffer ++ c, s.frame⟩ ⟨t.key, t.buffer ++ c, t.frame⟩ := by
  obtain ⟨hk, hf, hb⟩ := h
  refine ⟨hk, hf, ?_⟩
  rcases hb with hb | ⟨hn, ⟨j, hj1, hj2, hj3⟩ | ⟨j, hj1, hj2, hj3⟩⟩
  · exact Or.inl (by rw [hb])
  · exact Or.inr ⟨hn, Or.inl ⟨j, hj1, hj2, by rw [hj3, List.append_assoc]⟩⟩
  · exact Or.inr ⟨hn, Or.inr ⟨j, hj1, hj2, by rw [hj3, List.append_assoc]⟩⟩

/-- Stepping the longer side of a junk-related pair: the data-link header
fails on the marker-free junk head, so the reader trims to the next marker,
landing on `dropToMarker t.buffer` — which differs from `t.buffer` by at most
a marker-free junk prefix on the other side. -/
theorem stepOnce_junk {s : ReaderState} {tb : List Nat}
    (hj : junk s.buffer tb) (h6 : 6 ≤ s.buffer.length) :
    stepOnce s = .cont [] ⟨s.key, dropToMarker tb, none⟩ ∧
      (dropToMarker tb).length ≤ tb.length ∧
      (dropToMarker tb = tb ∨ junk tb (dropToMarker tb)) := by
  obtain ⟨j, hj1, hj2, hj3⟩ := hj
  obtain ⟨x, j0, rfl⟩ : ∃ x j0, j = x :: j0 := by
    cases j with
    | nil => exact absurd rfl hj1
    | cons x j0 => exact ⟨x, j0, rfl⟩
  have hx : x ≠ 0x68 := hj2 x (by simp)
  have hdr : parseMBusDataLinkHeader s.buffer = none := by
    rw [hj3, List.cons_append]
    exact parseMBusDataLinkHeader_cons_ne hx
  have htrim : trim_buffer_to_start_character_or_end s.buffer = dropToMarker tb := by
    rw [hj3, List.cons_append]
    simp only [trim_buffer_to_start_character_or_end]
    exact dropToMarker_append_of_forall (fun y hy => hj2 y (by simp [hy])) tb
  refine ⟨?_, dropToMarker_length_le tb, ?_⟩
  · rw [stepOnce_of_header_none h6 hdr, htrim]
  · obtain ⟨j', hj'1, hj'2⟩ := exists_markerFree_decomp tb
    cases hje : j' with
    | nil =>
      left
      rw [hje] at hj'2
      simpa using hj'2.symm
    | cons y j'' =>
      right
      exact ⟨j', by simp [hje], hj'1, hj'2⟩

/-- Running the loop on `Rel`-related states emits the same frames and leaves
`Rel`-related states, for any sufficient fuel. -/
theorem runF_rel : ∀ n : Nat, ∀ s t : ReaderState,
    s.buffer.length + t.buffer.length ≤ n → Rel s t →
    ∀ f₁ f₂ : Nat, s.buffer.length < f₁ → t.buffer.length < f₂ →
    (runF f₁ s).1 = (runF f₂ t).1 ∧ Rel (runF f₁ s).2 (runF f₂ t).2 := by
  intro n
  induction n using Nat.strong_induction_on with
  | _ n ih =>
    intro s t hsum hrel f₁ f₂ hf₁ hf₂
    obtain ⟨hkey, hframe, hbuf⟩ := hrel
    rcases hbuf with heq | ⟨hfn, hj | hj⟩
    · -- identical states
      have hst : s = t := by
        cases s; cases t
        simp only [ReaderState.mk.injEq]
        exact ⟨hkey, heq, hframe⟩
      subst hst
      rw [runF_fuel_eq hf₁ hf₂]
      exact ⟨rfl, Rel.refl _⟩
    · -- `s` carries the junk prefix
      have hlen : t.buffer.length < s.buffer.length := by
        obtain ⟨j, hj1, hj2, hj3⟩ := hj
        rw [hj3]
        simp only [List.length_append]
        cases j with
        | nil => exact absurd rfl hj1
        | cons y j0 => simp
      by_cases h6 : s.buffer.length < 6
      · rw [runF_of_halt (stepOnce_of_short h6), runF_of_halt (stepOnce_of_short (by omega))]
        exact ⟨rfl, ⟨hkey, hframe, Or.inr ⟨hfn, Or.inl hj⟩⟩⟩
      · obtain ⟨hstep, hdlen, hdrel⟩ := stepOnce_junk hj (by omega)
        cases f₁ with
        | zero => omega
        | succ m₁ =>
          rw [runF_succ_cont hstep m₁]
          have hrel2 : Rel ⟨s.key, dropToMarker t.buffer, none⟩ t := by
            refine ⟨hkey, by rw [← hframe, hfn], ?_⟩
            rcases hdrel with hd | hd
            · exact Or.inl hd
            · exact Or.inr ⟨rfl, Or.inr hd⟩
          have hb1 : (dropToMarker t.buffer).length < m₁ := by omega
          have hrec := ih ((dropToMarker t.buffer).length + t.buffer.length)
            (by omega) ⟨s.key, dropToMarker t.buffer, none⟩ t (le_refl _) hrel2
            m₁ f₂ hb1 hf₂
          exact ⟨by simpa using hrec.1, hrec.2⟩
    · -- `t` carries the junk prefix
      have hlen : s.buffer.length < t.buffer.length := by
        obtain ⟨j, hj1, hj2, hj3⟩ := hj
        rw [hj3]
        simp only [List.length_append]
        cases j with
        | nil => exact absurd rfl hj1
        | cons y j0 => simp
      have hft : t.frame = none := by rw [← hframe, hfn]
      by_cases h6 : t.buffer.length < 6
      · rw [runF_of_halt (stepOnce_of_short h6), runF_of_halt (stepOnce_of_short (by omega))]
        exact ⟨rfl, ⟨hkey, hframe, Or.inr ⟨hfn, Or.inr hj⟩⟩⟩
      · obtain ⟨hstep, hdlen, hdrel⟩ := stepOnce_junk hj (by omega)
        cases f₂ with
        | zero => omega
        | succ m₂ =>
          rw [runF_succ_cont hstep m₂]
          have hrel2 : Rel s ⟨t.key, dropToMarker s.buffer, none⟩ := by
            refine ⟨hkey, by rw [hfn], ?_⟩
            rcases hdrel with hd | hd
            · exact Or.inl hd.symm
            · exact Or.inr ⟨hfn, Or.inl hd⟩
          have hb2 : (dropToMarker s.buffer).length < m₂ := by omega
          have hrec := ih (s.buffer.length + (dropToMarker s.buffer).length)
            (by omega) s ⟨t.key, dropToMarker s.buffer, none⟩ (le_refl _) hrel2
            f₁ m₂ hf₁ hb2
          exact ⟨by simpa using hrec.1, hrec.2⟩

/-! ## The split property: one `read` of `b ++ e` versus `read b` then `read e` -/

theorem runF_split_halt {b key : List Nat} {fr : Option DlmsTinetzFrame}
    {e : List Nat} {f₁ f₂ f₃ : Nat}
    (hs : stepOnce ⟨key, b, fr⟩ = .halt) :
    SplitStatement b key fr e f₁ f₂ f₃ := by
  intro hf₁ hf₂ hf₃
  rw [runF_of_halt hs] at hf₃ ⊢
  simp only [ReaderState.buffer, ReaderState.key, ReaderState.frame] at hf₃ ⊢
  simp only [List.nil_append]
  have h1 : (⟨key, b ++ e, fr⟩ : ReaderState).buffer.length < f₁ := by
    simp only [ReaderState.buffer, List.length_append]; omega
  have h3 : (⟨key, b ++ e, fr⟩ : ReaderState).buffer.length < f₃ := by
    simp only [ReaderState.buffer, List.length_append]; omega
  rw [runF_fuel_eq h1 h3]

theorem runF_split_trim {n : Nat} (ih : SplitIH n) {b : List Nat}
    (hbn : b.length ≤ n + 1) {key : List Nat} {fr : Option DlmsTinetzFrame}
    {e : List Nat} {f₁ f₂ f₃ : Nat} (h6 : 6 ≤ b.length)
    (hstep : stepOnce ⟨key, b, fr⟩ =
      .cont [] ⟨key, trim_buffer_to_start_character_or_end b, none⟩)
    (hstep2 : stepOnce ⟨key, b ++ e, fr⟩ =
      .cont [] ⟨key, trim_buffer_to_start_character_or_end (b ++ e), none⟩) :
    SplitStatement b key fr e f₁ f₂ f₃ := by
  intro hf₁ hf₂ hf₃
  obtain ⟨x, rest, rfl⟩ : ∃ x rest, b = x :: rest := by
    cases b with
    | nil => simp at h6
    | cons x rest => exact ⟨x, rest, rfl⟩
  have htl : (trim_buffer_to_start_character_or_end (x :: rest)).length < (x :: rest).length :=
    trim_length_lt (by simp)
  cases f₁ with
  | zero => omega
  | succ m₁ =>
  cases f₂ with
  | zero => omega
  | succ m₂ =>
  simp only [runF_succ_cont hstep m₂] at hf₃ ⊢
  simp only [runF_succ_cont hstep2 m₁]
  simp only [List.nil_append]
  by_cases hm : 0x68 ∈ rest
  · have htr : trim_buffer_to_start_character_or_end ((x :: rest) ++ e)
        = trim_buffer_to_start_character_or_end (x :: rest) ++ e := by
      simp only [List.cons_append, trim_buffer_to_start_character_or_end]
      exact dropToMarker_append_of_mem hm e
    rw [htr]
    exact ih (trim_buffer_to_start_character_or_end (x :: rest))
      (by simp only [List.length_cons] at hbn htl; omega) key none e m₁ m₂ f₃
      (by simp only [List.length_cons] at hf₁ htl ⊢; omega)
      (by omega) hf₃
  · have hrest : ∀ y ∈ rest, y ≠ 0x68 := fun y hy hEq => hm (hEq ▸ hy)
    have htrimnil : trim_buffer_to_start_character_or_end (x :: rest) = [] := by
      simp only [trim_buffer_to_start_character_or_end]
      exact dropToMarker_eq_nil hrest
    have htr : trim_buffer_to_start_character_or_end ((x :: rest) ++ e)
        = dropToMarker e := by
      simp only [List.cons_append, trim_buffer_to_start_character_or_end]
      exact dropToMarker_append_of_forall hrest e
    rw [htr]
    rw [htrimnil] at hf₃ ⊢
    have hnil : runF m₂ (⟨key, [], none⟩ : ReaderState) = ([], ⟨key, [], none⟩) :=
      runF_of_halt (stepOnce_of_short (by simp)) m₂
    rw [hnil] at hf₃ ⊢
    simp only [ReaderState.buffer, ReaderState.key, ReaderState.frame,
      List.length_nil, List.nil_append] at hf₃ ⊢
    -- relate `dropToMarker e` with `e` through the junk-prefix simulation
    obtain ⟨j, hj1, hj2⟩ := exists_markerFree_decomp e
    have hdlen := dropToMarker_length_le e
    have hrel : Rel ⟨key, dropToMarker e, none⟩ ⟨key, e, none⟩ := by
      refine ⟨rfl, rfl, ?_⟩
      cases hje : j with
      | nil =>
        left
        rw [hje] at hj2
        simpa using hj2.symm
      | cons y j' =>
        right
        exact ⟨rfl, Or.inr ⟨j, by simp [hje], hj1, hj2⟩⟩
    have hout := (runF_rel ((dropToMarker e).length + e.length)
      ⟨key, dropToMarker e, none⟩ ⟨key, e, none⟩ (le_refl _) hrel m₁ f₃
      (by simp only [ReaderState.buffer, List.length_cons] at hf₁ ⊢; omega)
      (by simp only [ReaderState.buffer]; omega)).1
    exact hout

theorem runF_split_drop {n : Nat} (ih : SplitIH n) {b : List Nat}
    (hbn : b.length ≤ n + 1) {key : List Nat} {fr : Option DlmsTinetzFrame}
    {e : List Nat} {f₁ f₂ f₃ : Nat} {L : Nat} {out : List DlmsTinetzFrame}
    {fr' : Option DlmsTinetzFrame} (h6 : 6 ≤ b.length) (hL6 : L + 6 ≤ b.length)
    (hstep : stepOnce ⟨key, b, fr⟩ = .cont out ⟨key, b.drop (L + 6), fr'⟩)
    (hstep2 : stepOnce ⟨key, b ++ e, fr⟩ = .cont out ⟨key, (b ++ e).drop (L + 6), fr'⟩) :
    SplitStatement b key fr e f₁ f₂ f₃ := by
  intro hf₁ hf₂ hf₃
  cases f₁ with
  | zero => omega
  | succ m₁ =>
  cases f₂ with
  | zero => omega
  | succ m₂ =>
  rw [List.drop_append_of_le_length (by omega)] at hstep2
  simp only [runF_succ_cont hstep m₂] at hf₃ ⊢
  simp only [runF_succ_cont hstep2 m₁]
  rw [List.append_assoc]
  exact congrArg (out ++ ·)
    (ih (b.drop (L + 6)) (by simp only [List.length_drop]; omega) key fr' e m₁ m₂ f₃
      (by simp only [List.length_drop]; omega)
      (by simp only [List.length_drop]; omega) hf₃)

theorem runF_split : ∀ (b key : List Nat) (fr : Option DlmsTinetzFrame)
    (e : List Nat) (f₁ f₂ f₃ : Nat), SplitStatement b key fr e f₁ f₂ f₃ := by
  suffices h : ∀ n, SplitIH n by
    intro b key fr e f₁ f₂ f₃
    exact h b.length b (le_refl _) key fr e f₁ f₂ f₃
  intro n
  induction n with
  | zero =>
    intro b hb key fr e f₁ f₂ f₃
    obtain rfl : b = [] := by
      cases b with
      | nil => rfl
      | cons x rest => simp at hb
    exact runF_split_halt (stepOnce_of_short (by simp))
  | succ n ih =>
    intro b hb key fr e f₁ f₂ f₃
    by_cases h6 : b.length < 6
    · exact runF_split_halt (stepOnce_of_short h6)
    · push_neg at h6
      cases hp : parseMBusDataLinkHeader b with
      | none =>
        have hp2 : parseMBusDataLinkHeader (b ++ e) = none := by
          rw [parseMBusDataLinkHeader_append h6 e, hp]
        exact runF_split_trim ih hb h6
          (stepOnce_of_header_none h6 hp)
          (stepOnce_of_header_none (by simp only [ReaderState.buffer, List.length_append]; omega) hp2)
      | some h =>
        by_cases hlen : b.length < h.lField + 6
        · exact runF_split_halt (stepOnce_of_incomplete h6 hp hlen)
        · push_neg at hlen
          have hp2 : parseMBusDataLinkHeader (b ++ e) = some h := by
            rw [parseMBusDataLinkHeader_append h6 e, hp]
          have hlay2 := parseMBusDataLinkLayer_append hp hlen e
          have h6e : 6 ≤ (b ++ e).length := by
            simp only [List.length_append]; omega
          have hlene : h.lField + 6 ≤ (b ++ e).length := by
            simp only [List.length_append]; omega
          cases hl : parseMBusDataLinkLayer b with
          | error err =>
            cases err with
            | checksum =>
              exact runF_split_drop ih hb h6 hlen
                (stepOnce_of_checksum h6 hp hlen hl)
                (stepOnce_of_checksum h6e hp2 hlene (by rw [hlay2, hl]))
            | structural =>
              exact runF_split_trim ih hb h6
                (stepOnce_of_structural h6 hp hlen hl)
                (stepOnce_of_structural h6e hp2 hlene (by rw [hlay2, hl]))
          | ok md =>
            cases hfp : processFrame key fr md with
            | none =>
              exact runF_split_trim ih hb h6
                (stepOnce_of_ok_none h6 hp hlen hl hfp)
                (stepOnce_of_ok_none h6e hp2 hlene (by rw [hlay2, hl]) hfp)
            | some r =>
              exact runF_split_drop ih hb h6 hlen
                (stepOnce_of_ok h6 hp hlen hl hfp)
                (stepOnce_of_ok h6e hp2 hlene (by rw [hlay2, hl]) hfp)

/-! ## Chunk-boundary independence -/

theorem readAll_eq_read_flatten : ∀ (chunks : List (List Nat)) (s t : ReaderState),
    Rel s t → stepOnce t = .halt →
    (readAll s chunks).1 = (read t chunks.flatten).1 := by
  intro chunks
  induction chunks with
  | nil =>
    intro s t hrel ht
    have hst : (⟨t.key, t.buffer ++ [], t.frame⟩ : ReaderState) = t := by
      rw [List.append_nil]
    simp only [readAll, List.flatten_nil, read, hst, List.length_nil]
    rw [runF_of_halt ht]
  | cons c cs ih =>
    intro s t hrel ht
    have hsplit := runF_split (t.buffer ++ c) t.key t.frame cs.flatten
      (t.buffer.length + (c.length + cs.flatten.length) + 1)
      (t.buffer.length + c.length + 1)
      ((runF (t.buffer.length + c.length + 1)
          ⟨t.key, t.buffer ++ c, t.frame⟩).2.buffer.length + cs.flatten.length + 1)
      (by simp only [List.length_append]; omega)
      (by simp only [List.length_append]; omega)
      (by omega)
    have hsim := runF_rel ((s.buffer ++ c).length + (t.buffer ++ c).length)
      ⟨s.key, s.buffer ++ c, s.frame⟩ ⟨t.key, t.buffer ++ c, t.frame⟩ (le_refl _)
      (Rel.append hrel c)
      (s.buffer.length + c.length + 1) (t.buffer.length + c.length + 1)
      (by simp only [ReaderState.buffer, List.length_append]; omega)
      (by simp only [ReaderState.buffer, List.length_append]; omega)
    have hmidhalt : stepOnce (read t c).2 = .halt := by
      simp only [read]
      exact runF_final_halt (by simp only [ReaderState.buffer, List.length_append]; omega)
    have hrec := ih (read s c).2 (read t c).2 hsim.2 hmidhalt
    simp only [readAll, List.flatten_cons, read] at hrec ⊢
    have hb : t.buffer ++ (c ++ cs.flatten) = (t.buffer ++ c) ++ cs.flatten := by
      rw [List.append_assoc]
    rw [hb]
    have hlenflat : t.buffer.length + (c ++ cs.flatten).length + 1
        = t.buffer.length + (c.length + cs.flatten.length) + 1 := by
      simp only [List.length_append]
    rw [hlenflat, hsplit]
    exact congrArg₂ (· ++ ·) hsim.1 hrec

/-- Claim C1: for every byte stream and every partition of it into consecutive
chunks, feeding the chunks one `read` at a time to a fresh
`DlmsTinetzFrameReader` yields, concatenated in call order, the same sequence
of emitted `DlmsTinetzFrame`s as feeding the whole stream in a single `read`
on a fresh reader with the same key — and therefore the same decoded
measurement mappings, since the mapping of an emitted frame is a
deterministic function (`decrypt` then `decode_frame_content`) of the frame
alone.  Moreover a buffered but incomplete physical frame (header parsed,
fewer than `L + 6` bytes buffered) is never treated as a failure: `read`
leaves the whole buffer and pending frame untouched and emits nothing. -/
theorem read_chunk_boundary_independence :
    (∀ (key : List Nat) (chunks : List (List Nat)),
      (readAll (freshReader key) chunks).1 = (read (freshReader key) chunks.flatten).1) ∧
    (∀ (st : ReaderState) (h : MBusHeader), 6 ≤ st.buffer.length →
      parseMBusDataLinkHeader st.buffer = some h →
      st.buffer.length < h.lField + 6 →
      ∀ f : Nat, runF f st = ([], st)) := by
  constructor
  · intro key chunks
    exact readAll_eq_read_flatten chunks (freshReader key) (freshReader key)
      (Rel.refl _) (stepOnce_of_short (by simp [freshReader]))
  · intro st h h6 hp hlen f
    exact runF_of_halt (stepOnce_of_incomplete h6 hp hlen) f

/-- Witness for C1 at concrete inputs: three chunks of a stream containing a
truncated header, and explicit retention of a 6-byte incomplete frame. -/
theorem read_chunk_boundary_independence_witness :
    (readAll (freshReader []) [[0x68, 21], [], [0x15]]).1
        = (read (freshReader []) ([[0x68, 21], [], [0x15]].flatten)).1 ∧
    runF 7 ⟨[], [0x68, 21, 21, 0x68, 0x53, 0xFF], none⟩
        = ([], ⟨[], [0x68, 21, 21, 0x68, 0x53, 0xFF], none⟩) :=
  ⟨read_chunk_boundary_independence.1 [] [[0x68, 21], [], [0x15]],
   read_chunk_boundary_independence.2 ⟨[], [0x68, 21, 21, 0x68, 0x53, 0xFF], none⟩
     ⟨21, 0x53⟩ (by decide) (by decide) (by decide) 7⟩

/-! ## Termination of the read loop (C10) -/

/-- Claim C10: every call to `DlmsTinetzFrameReader.read` terminates.  Each
iteration of the processing loop either breaks out (`halt`) or strictly
decreases the buffer size, so any fuel beyond the buffer length computes the
same result (the loop needs at most `buffer.length` iterations); the resync
trim always drops at least one byte or clears the buffer. -/
theorem read_loop_terminates :
    (∀ (st st' : ReaderState) (out : List DlmsTinetzFrame),
      stepOnce st = .cont out st' → st'.buffer.length < st.buffer.length) ∧
    (∀ (f₁ f₂ : Nat) (st : ReaderState),
      st.buffer.length < f₁ → st.buffer.length < f₂ → runF f₁ st = runF f₂ st) ∧
    (∀ b : List Nat, b ≠ [] →
      (trim_buffer_to_start_character_or_end b).length < b.length) := by
  refine ⟨?_, ?_, ?_⟩
  · intro st st' out h
    exact stepOnce_cont_length_lt h
  · intro f₁ f₂ st h₁ h₂
    exact runF_fuel_eq h₁ h₂
  · intro b hb
    exact trim_length_lt hb

/-- Witness for C10 at concrete inputs. -/
theorem read_loop_terminates_witness :
    runF 28 (⟨[], AmsHan.goodFrame, none⟩ : ReaderState)
        = runF 100 (⟨[], AmsHan.goodFrame, none⟩ : ReaderState) ∧
    (trim_buffer_to_start_character_or_end [1, 2, 0x68, 3]).length < 4 :=
  ⟨read_loop_terminates.2.1 28 100 ⟨[], AmsHan.goodFrame, none⟩ (by decide) (by decide),
   read_loop_terminates.2.2 [1, 2, 0x68, 3] (by decide)⟩

/-! ## Emission happens exactly for valid pending frames (C2) -/

theorem processFrame_out_valid {key : List Nat} {fro : Option DlmsTinetzFrame}
    {md : MBusData} {r : List DlmsTinetzFrame × Option DlmsTinetzFrame}
    (h : processFrame key fro md = some r) :
    ∀ g ∈ r.1, g.is_valid = true := by
  unfold processFrame at h
  split at h
  · exact Option.noConfusion h
  · split at h
    · split at h
      · cases h
        intro g hg
        split at hg
        · rename_i hv
          simp only [List.mem_singleton] at hg
          exact hg ▸ hv
        · simp at hg
      · cases h
        intro g hg
        simp at hg
    · cases h
      intro g hg
      simp at hg

theorem stepOnce_out_valid {st st' : ReaderState} {out : List DlmsTinetzFrame}
    (h : stepOnce st = .cont out st') : ∀ g ∈ out, g.is_valid = true := by
  unfold stepOnce at h
  split at h
  · exact StepResult.noConfusion h
  · split at h
    · cases h
      intro g hg
      simp at hg
    · split at h
      · exact StepResult.noConfusion h
      · split at h
        · cases h
          intro g hg
          simp at hg
        · cases h
          intro g hg
          simp at hg
        · split at h
          · cases h
            intro g hg
            simp at hg
          · rename_i hfp
            cases h
            exact processFrame_out_valid hfp

theorem runF_out_valid (f : Nat) (st : ReaderState) :
    ∀ g ∈ (runF f st).1, g.is_valid = true := by
  induction f generalizing st with
  | zero =>
    intro g hg
    simp [runF] at hg
  | succ n ih =>
    cases hs : stepOnce st with
    | halt =>
      rw [runF_of_halt hs]
      intro g hg
      simp at hg
    | cont out st' =>
      rw [runF_succ_cont hs]
      intro g hg
      rcases List.mem_append.mp hg with h1 | h2
      · exact stepOnce_out_valid hs g h1
      · exact ih st' g h2

/-- Claim C2: at the moment a physical frame whose CI field has bit `0x10`
set is consumed, a frame is emitted if and only if a pending message is open
after the CI dispatch and its accumulated ciphertext length equals the
declared total length (`is_valid`); an invalid pending message is discarded
(pending slot cleared, nothing emitted, no error), and globally every frame
ever emitted by the read loop satisfies `is_valid`, so no emitted frame is
short or over-length. -/
theorem frame_emitted_iff_valid :
    (∀ (f : Nat) (st : ReaderState), ∀ g ∈ (runF f st).1,
      (g.frameData.length : Int) = g.declaredLength) ∧
    (∀ (key : List Nat) (fro : Option DlmsTinetzFrame) (md : MBusData)
      (out : List DlmsTinetzFrame) (fr2 : Option DlmsTinetzFrame),
      processFrame key fro md = some (out, fr2) →
      ((∃ g, out = [g]) ↔ (md.ciField &&& 0x10 = 0x10 ∧
        ∃ g, processStep1 key fro md = some (some g) ∧ g.is_valid = true)) ∧
      (md.ciField &&& 0x10 = 0x10 → fr2 = none) ∧
      (∀ g, processStep1 key fro md = some (some g) →
        md.ciField &&& 0x10 = 0x10 → g.is_valid = false →
        out = [] ∧ fr2 = none)) := by
  constructor
  · intro f st g hg
    have h := runF_out_valid f st g hg
    simpa [DlmsTinetzFrame.is_valid] using h
  · intro key fro md out fr2 h
    unfold processFrame at h
    cases hs1 : processStep1 key fro md with
    | none =>
      rw [hs1] at h
      exact Option.noConfusion h
    | some fr1 =>
      rw [hs1] at h
      cases fr1 with
      | none =>
        simp only [] at h
        cases h
        refine ⟨?_, fun _ => rfl, ?_⟩
        · constructor
          · rintro ⟨g, hg⟩
            exact absurd hg (by simp)
          · rintro ⟨hbit, g, hg, hv⟩
            exact absurd hg (by simp)
        · intro g hg
          exact absurd hg (by simp)
      | some g0 =>
        simp only [] at h
        by_cases hbit : md.ciField &&& 0x10 = 0x10
        · rw [if_pos hbit] at h
          cases h
          by_cases hv : g0.is_valid
          · refine ⟨?_, fun _ => rfl, ?_⟩
            · constructor
              · intro _
                exact ⟨hbit, g0, rfl, hv⟩
              · intro _
                exact ⟨g0, by simp [hv]⟩
            · intro g hg hb hvf
              cases hg
              rw [hv] at hvf
              exact Bool.noConfusion hvf
          · refine ⟨?_, fun _ => rfl, ?_⟩
            · constructor
              · rintro ⟨g, hg⟩
                rw [if_neg hv] at hg
                exact List.noConfusion hg
              · rintro ⟨_, g, hg, hgv⟩
                cases hg
                exact absurd hgv hv
            · intro g hg hb hvf
              cases hg
              simp [hvf]
        · rw [if_neg hbit] at h
          cases h
          refine ⟨?_, fun hb => absurd hb hbit, ?_⟩
          · constructor
            · rintro ⟨g, hg⟩
              exact List.noConfusion hg
            · rintro ⟨hb, _⟩
              exact absurd hb hbit
          · intro g hg hb
            exact absurd hb hbit

/-- Witness for C2 at concrete inputs: the loop on `goodFrame` emits only
valid frames, and `processFrame` on the single-segment frame data emits the
pending frame exactly because it is valid. -/
theorem frame_emitted_iff_valid_witness :
    ((emittedGood.frameData.length : Int) = emittedGood.declaredLength) ∧
    ((∃ g, [emittedGood] = [g]) ↔ (((0x10 : Nat) &&& 0x10 = 0x10) ∧
      ∃ g, processStep1 [] none ⟨21, 0x53, 0x10,
        [0xDB, 0x08, 0, 0, 0, 0, 0, 0, 0, 0, 5, 0x21, 0, 0, 0, 0]⟩
          = some (some g) ∧ g.is_valid = true)) :=
  ⟨frame_emitted_iff_valid.1 28 ⟨[], AmsHan.goodFrame, none⟩ emittedGood (by decide),
   (frame_emitted_iff_valid.2 [] none
      ⟨21, 0x53, 0x10, [0xDB, 0x08, 0, 0, 0, 0, 0, 0, 0, 0, 5, 0x21, 0, 0, 0, 0]⟩
      [emittedGood] none (by decide)).1⟩

/-! ## The variable-width length field of the ciphering header (C5) -/

/-- Claim C5: in the application-layer ciphering header, if the byte following
the 8-byte system title equals `0x82`, that byte is consumed as a discarded
Length_Prefix and the true length is the following two bytes read as a big
endian 16-bit value; for any other value that single byte itself is the
length.  Stated over explicit wire bytes: the security control byte `0x21`,
the 4 frame-counter bytes and the greedy encrypted payload follow at the
positions induced by each of the two encodings. -/
theorem dlms_variable_length_rule :
    (∀ (t1 t2 t3 t4 t5 t6 t7 t8 c1 c2 c3 c4 hi lo : Nat) (pay : List Nat),
      parseDLMSApplicationLayer
          (0xDB :: 0x08 :: t1 :: t2 :: t3 :: t4 :: t5 :: t6 :: t7 :: t8 ::
            0x82 :: hi :: lo :: 0x21 :: c1 :: c2 :: c3 :: c4 :: pay)
        = some ⟨hi * 256 + lo, [t1, t2, t3, t4, t5, t6, t7, t8], [c1, c2, c3, c4], pay⟩) ∧
    (∀ (t1 t2 t3 t4 t5 t6 t7 t8 c1 c2 c3 c4 v : Nat) (pay : List Nat), v ≠ 0x82 →
      parseDLMSApplicationLayer
          (0xDB :: 0x08 :: t1 :: t2 :: t3 :: t4 :: t5 :: t6 :: t7 :: t8 ::
            v :: 0x21 :: c1 :: c2 :: c3 :: c4 :: pay)
        = some ⟨v, [t1, t2, t3, t4, t5, t6, t7, t8], [c1, c2, c3, c4], pay⟩) := by
  constructor
  · intro t1 t2 t3 t4 t5 t6 t7 t8 c1 c2 c3 c4 hi lo pay
    simp [parseDLMSApplicationLayer, parseDLMSAfterLengthField]
  · intro t1 t2 t3 t4 t5 t6 t7 t8 c1 c2 c3 c4 v pay hv
    simp [parseDLMSApplicationLayer, parseDLMSAfterLengthField, hv]

/-- Witness for C5: both encodings at concrete bytes (`0x82 0x01 0x2C` gives
length 300; plain byte `0x2D` gives length 45). -/
theorem dlms_variable_length_rule_witness :
    parseDLMSApplicationLayer
        (0xDB :: 0x08 :: 1 :: 2 :: 3 :: 4 :: 5 :: 6 :: 7 :: 8 ::
          0x82 :: 0x01 :: 0x2C :: 0x21 :: 9 :: 10 :: 11 :: 12 :: [0xAA])
      = some ⟨300, [1, 2, 3, 4, 5, 6, 7, 8], [9, 10, 11, 12], [0xAA]⟩ ∧
    parseDLMSApplicationLayer
        (0xDB :: 0x08 :: 1 :: 2 :: 3 :: 4 :: 5 :: 6 :: 7 :: 8 ::
          0x2D :: 0x21 :: 9 :: 10 :: 11 :: 12 :: [0xAA])
      = some ⟨45, [1, 2, 3, 4, 5, 6, 7, 8], [9, 10, 11, 12], [0xAA]⟩ :=
  ⟨dlms_variable_length_rule.1 1 2 3 4 5 6 7 8 9 10 11 12 0x01 0x2C [0xAA],
   dlms_variable_length_rule.2 1 2 3 4 5 6 7 8 9 10 11 12 0x2D [0xAA] (by decide)⟩

/-! ## The checksum rule (C6) -/

/-- Claim C6: a fully buffered physical frame parses without a checksum error
if and only if its checksum byte equals the sum of the payload bytes plus the
control field, the address field (`0xFF`), the CI field and the two service
access point bytes (`0x01`, `0x67`), taken modulo 256; a mismatch is signaled
as `ChecksumError`, distinct from the generic structural errors. -/
theorem mbus_checksum_rule (L C ci chk : Nat) (data : List Nat)
    (hC : C = 0x53 ∨ C = 0x73) (hci : ci ≤ 0x1E) (hL : data.length + 5 = L) :
    (parseMBusDataLinkLayer
        (0x68 :: L :: L :: 0x68 :: C :: 0xFF :: ci :: 0x01 :: 0x67 ::
          (data ++ [chk, 0x16]))
      = .ok ⟨L, C, ci, data⟩
      ↔ chk = (data.sum + C + 0xFF + ci + 0x01 + 0x67) % 256) ∧
    (chk ≠ (data.sum + C + 0xFF + ci + 0x01 + 0x67) % 256 →
      parseMBusDataLinkLayer
          (0x68 :: L :: L :: 0x68 :: C :: 0xFF :: ci :: 0x01 :: 0x67 ::
            (data ++ [chk, 0x16]))
        = .error .checksum) := by
  have hhdr : parseMBusDataLinkHeader
      (0x68 :: L :: L :: 0x68 :: C :: 0xFF :: ci :: 0x01 :: 0x67 ::
        (data ++ [chk, 0x16])) = some ⟨L, C⟩ := by
    simp [parseMBusDataLinkHeader, hC]
  have hL5 : L - 5 = data.length := by omega
  have htake : (data ++ [chk, 0x16]).take (L - 5) = data := by
    rw [hL5, List.take_left]
  have hchk : (data ++ [chk, 0x16])[L - 5]? = some chk := by
    rw [hL5, List.getElem?_append]
    simp
  have hstp : (data ++ [chk, 0x16])[L - 4]? = some 0x16 := by
    have hL4 : L - 4 = data.length + 1 := by omega
    rw [hL4, List.getElem?_append]
    simp
  have hcond : 5 ≤ L ∧ L - 5 ≤ (data ++ [chk, 0x16]).length := by
    constructor
    · omega
    · simp only [List.length_append, List.length_cons, List.length_nil]
      omega
  by_cases hch : chk = (data.sum + C + 0xFF + ci + 0x01 + 0x67) % 256
  · subst hch
    refine ⟨⟨fun _ => rfl, fun _ => ?_⟩, fun hne => absurd rfl hne⟩
    simp [parseMBusDataLinkLayer, hhdr, htake, hchk, hstp, hci]
    all_goals omega
  · have herr : parseMBusDataLinkLayer
        (0x68 :: L :: L :: 0x68 :: C :: 0xFF :: ci :: 0x01 :: 0x67 ::
          (data ++ [chk, 0x16]))
        = .error .checksum := by
      simp [parseMBusDataLinkLayer, hhdr, htake, hchk, hci, hch]
      all_goals omega
    refine ⟨⟨fun hok => ?_, fun h => absurd h hch⟩, fun _ => herr⟩
    rw [herr] at hok
    exact Except.noConfusion hok

/-- Witness for C6 at concrete bytes: `goodFrame` (checksum 211) parses fully,
and flipping its checksum byte to 0 yields exactly a checksum error. -/
theorem mbus_checksum_rule_witness :
    (parseMBusDataLinkLayer
        (0x68 :: 21 :: 21 :: 0x68 :: 0x53 :: 0xFF :: 0x10 :: 0x01 :: 0x67 ::
          ([0xDB, 0x08, 0, 0, 0, 0, 0, 0, 0, 0, 5, 0x21, 0, 0, 0, 0] ++ [211, 0x16]))
      = .ok ⟨21, 0x53, 0x10, [0xDB, 0x08, 0, 0, 0, 0, 0, 0, 0, 0, 5, 0x21, 0, 0, 0, 0]⟩
      ↔ 211 = (([0xDB, 0x08, 0, 0, 0, 0, 0, 0, 0, 0, 5, 0x21, 0, 0, 0, 0].sum
          + 0x53 + 0xFF + 0x10 + 0x01 + 0x67) % 256)) ∧
    parseMBusDataLinkLayer
        (0x68 :: 21 :: 21 :: 0x68 :: 0x53 :: 0xFF :: 0x10 :: 0x01 :: 0x67 ::
          ([0xDB, 0x08, 0, 0, 0, 0, 0, 0, 0, 0, 5, 0x21, 0, 0, 0, 0] ++ [0, 0x16]))
      = .error .checksum :=
  ⟨(mbus_checksum_rule 21 0x53 0x10 211 [0xDB, 0x08, 0, 0, 0, 0, 0, 0, 0, 0, 5, 0x21, 0, 0, 0, 0]
      (Or.inl rfl) (by decide) (by decide)).1,
   (mbus_checksum_rule 21 0x53 0x10 0 [0xDB, 0x08, 0, 0, 0, 0, 0, 0, 0, 0, 5, 0x21, 0, 0, 0, 0]
      (Or.inl rfl) (by decide) (by decide)).2 (by decide)⟩

/-! ## Recovery after a checksum mismatch (C7) -/

/-- Claim C7: on a checksum mismatch in a fully buffered physical frame,
`read` discards any open pending message, still trims the buffer past the
entire physical frame (`L + 6` bytes) and continues the loop — concretely, a
valid frame appended immediately after a checksum-corrupted one is still
decoded. -/
theorem checksum_mismatch_recovery :
    (∀ (st : ReaderState) (h : MBusHeader) (f : Nat),
      6 ≤ st.buffer.length → parseMBusDataLinkHeader st.buffer = some h →
      h.lField + 6 ≤ st.buffer.length →
      parseMBusDataLinkLayer st.buffer = .error .checksum →
      runF (f + 1) st = runF f ⟨st.key, st.buffer.drop (h.lField + 6), none⟩) ∧
    read (freshReader []) (badFrame ++ goodFrame) = ([emittedGood], ⟨[], [], none⟩) := by
  constructor
  · intro st h f h6 hp hlen hl
    rw [runF_succ_cont (stepOnce_of_checksum h6 hp hlen hl) f]
    simp
  · decide

/-- Witness for C7: one step on the corrupted `badFrame` drops exactly its
`L + 6 = 27` bytes and clears the pending slot. -/
theorem checksum_mismatch_recovery_witness :
    runF 28 (⟨[], AmsHan.badFrame, none⟩ : ReaderState)
      = runF 27 ⟨[], AmsHan.badFrame.drop 27, none⟩ :=
  checksum_mismatch_recovery.1 ⟨[], AmsHan.badFrame, none⟩ ⟨21, 0x53⟩ 27
    (by decide) (by decide) (by decide) (by decide)

/-! ## Resynchronization on structural failure (C8) -/

theorem dropToMarker_eq_drop {l : List Nat} {p : Nat} (hp : l[p]? = some 0x68)
    (hmin : ∀ q < p, l[q]? ≠ some 0x68) : dropToMarker l = l.drop p := by
  induction l generalizing p with
  | nil => simp at hp
  | cons y ys ih =>
    cases p with
    | zero =>
      simp only [List.getElem?_cons_zero, Option.some.injEq] at hp
      simp [dropToMarker, hp]
    | succ q =>
      have hy : y ≠ 0x68 := by
        have h0 := hmin 0 (by omega)
        simpa using h0
      simp only [dropToMarker, if_neg hy, List.drop_succ_cons]
      refine ih (by simpa using hp) ?_
      intro r hr
      have h1 := hmin (r + 1) (by omega)
      simpa using h1

/-- Claim C8: on a structural parse failure (bad start marker, mismatched
duplicate length byte, disallowed control field, disallowed CI value — the
header parse failing, the full-layer parse failing structurally, or the
application-layer parse inside the CI dispatch failing), `read` discards any
open pending message and trims the buffer to the first `0x68` found at
position `≥ 1`, dropping everything before it, or empties the buffer when no
such byte exists, then resumes the loop. -/
theorem structural_failure_resync :
    (∀ (st : ReaderState) (f : Nat), 6 ≤ st.buffer.length →
      (parseMBusDataLinkHeader st.buffer = none ∨
        (∃ h, parseMBusDataLinkHeader st.buffer = some h ∧
          h.lField + 6 ≤ st.buffer.length ∧
          (parseMBusDataLinkLayer st.buffer = .error .structural ∨
            (∃ md, parseMBusDataLinkLayer st.buffer = .ok md ∧
              processFrame st.key st.frame md = none)))) →
      runF (f + 1) st
        = runF f ⟨st.key, trim_buffer_to_start_character_or_end st.buffer, none⟩) ∧
    (∀ (x : Nat) (rest : List Nat),
      ((0x68 : Nat) ∉ rest → trim_buffer_to_start_character_or_end (x :: rest) = []) ∧
      (∀ p, rest[p]? = some 0x68 → (∀ q < p, rest[q]? ≠ some 0x68) →
        trim_buffer_to_start_character_or_end (x :: rest) = rest.drop p)) := by
  constructor
  · intro st f h6 hcase
    rcases hcase with hp | ⟨h, hp, hlen, hl | ⟨md, hl, hfp⟩⟩
    · rw [runF_succ_cont (stepOnce_of_header_none h6 hp) f]
      simp
    · rw [runF_succ_cont (stepOnce_of_structural h6 hp hlen hl) f]
      simp
    · rw [runF_succ_cont (stepOnce_of_ok_none h6 hp hlen hl hfp) f]
      simp
  · intro x rest
    constructor
    · intro hnm
      simp only [trim_buffer_to_start_character_or_end]
      exact dropToMarker_eq_nil fun y hy hEq => hnm (hEq ▸ hy)
    · intro p hp hmin
      simp only [trim_buffer_to_start_character_or_end]
      exact dropToMarker_eq_drop hp hmin

/-- Witness for C8: a buffer starting with a non-marker byte is trimmed to
its embedded marker, and the trim characterization at concrete bytes. -/
theorem structural_failure_resync_witness :
    runF 7 (⟨[], [0, 1, 2, 3, 4, 5], none⟩ : ReaderState)
      = runF 6 ⟨[], trim_buffer_to_start_character_or_end [0, 1, 2, 3, 4, 5], none⟩ ∧
    trim_buffer_to_start_character_or_end [0, 1, 0x68, 3] = [0x68, 3] :=
  ⟨structural_failure_resync.1 ⟨[], [0, 1, 2, 3, 4, 5], none⟩ 6 (by decide)
      (Or.inl (by decide)),
   (structural_failure_resync.2 0 [1, 0x68, 3]).2 1 (by decide)
     (by decide)⟩

/-! ## Decryption nonce and length preservation (C9) -/

theorem parseDLMSAfterLengthField_shape {len : Nat} {title d : List Nat}
    {dd : DLMSData} (h : parseDLMSAfterLengthField len title d = some dd) :
    dd.systemTitle = title ∧ dd.frameCounter.length = 4 := by
  unfold parseDLMSAfterLengthField at h
  split at h
  · split at h
    · cases h
      exact ⟨rfl, rfl⟩
    · exact Option.noConfusion h
  · exact Option.noConfusion h

theorem parseDLMSApplicationLayer_shape {d : List Nat} {dd : DLMSData}
    (h : parseDLMSApplicationLayer d = some dd) :
    dd.systemTitle.length = 8 ∧ dd.frameCounter.length = 4 := by
  unfold parseDLMSApplicationLayer at h
  split at h
  · split at h
    · split at h
      · split at h
        · split at h
          · have hs := parseDLMSAfterLengthField_shape h
            rw [hs.1]
            exact ⟨rfl, hs.2⟩
          · exact Option.noConfusion h
        · have hs := parseDLMSAfterLengthField_shape h
          rw [hs.1]
          exact ⟨rfl, hs.2⟩
      · exact Option.noConfusion h
    · exact Option.noConfusion h
  · exact Option.noConfusion h

theorem processStep1_shape {key : List Nat} {fro : Option DlmsTinetzFrame}
    {md : MBusData} {fr1 : Option DlmsTinetzFrame}
    (hin : ∀ g, fro = some g → ShapeOK g)
    (h : processStep1 key fro md = some fr1) :
    ∀ g, fr1 = some g → ShapeOK g := by
  unfold processStep1 at h
  split at h
  · split at h
    · split at h
      · exact Option.noConfusion h
      · cases h
        intro g hg
        cases hg
        rename_i d hd
        exact parseDLMSApplicationLayer_shape hd
    · cases h
      intro g hg
      exact Option.noConfusion hg
  · rename_i f
    split at h
    · cases h
      intro g hg
      cases hg
      have hf := hin f rfl
      exact hf
    · cases h
      intro g hg
      cases hg
      exact hin f rfl

theorem processFrame_shape {key : List Nat} {fro : Option DlmsTinetzFrame}
    {md : MBusData} {r : List DlmsTinetzFrame × Option DlmsTinetzFrame}
    (hin : ∀ g, fro = some g → ShapeOK g)
    (h : processFrame key fro md = some r) :
    (∀ g ∈ r.1, ShapeOK g) ∧ (∀ g, r.2 = some g → ShapeOK g) := by
  unfold processFrame at h
  cases hs1 : processStep1 key fro md with
  | none =>
    rw [hs1] at h
    exact Option.noConfusion h
  | some fr1 =>
    rw [hs1] at h
    have hstep := processStep1_shape hin hs1
    cases fr1 with
    | none =>
      simp only [] at h
      cases h
      exact ⟨fun g hg => absurd hg (by simp), fun g hg => Option.noConfusion hg⟩
    | some g0 =>
      simp only [] at h
      have hg0 := hstep g0 rfl
      split at h
      · cases h
        refine ⟨?_, fun g hg => Option.noConfusion hg⟩
        intro g hg
        split at hg
        · simp only [List.mem_singleton] at hg
          exact hg ▸ hg0
        · simp at hg
      · cases h
        exact ⟨fun g hg => absurd hg (by simp), fun g hg => by cases hg; exact hg0⟩

theorem stepOnce_shape {st st' : ReaderState} {out : List DlmsTinetzFrame}
    (hin : ∀ g, st.frame = some g → ShapeOK g)
    (h : stepOnce st = .cont out st') :
    (∀ g ∈ out, ShapeOK g) ∧ (∀ g, st'.frame = some g → ShapeOK g) := by
  unfold stepOnce at h
  split at h
  · exact StepResult.noConfusion h
  · split at h
    · cases h
      exact ⟨fun g hg => absurd hg (by simp), fun g hg => Option.noConfusion hg⟩
    · split at h
      · exact StepResult.noConfusion h
      · split at h
        · cases h
          exact ⟨fun g hg => absurd hg (by simp), fun g hg => Option.noConfusion hg⟩
        · cases h
          exact ⟨fun g hg => absurd hg (by simp), fun g hg => Option.noConfusion hg⟩
        · split at h
          · cases h
            exact ⟨fun g hg => absurd hg (by simp), fun g hg => Option.noConfusion hg⟩
          · rename_i hfp
            cases h
            exact processFrame_shape hin hfp

theorem runF_shape (f : Nat) (st : ReaderState)
    (hin : ∀ g, st.frame = some g → ShapeOK g) :
    ∀ g ∈ (runF f st).1, ShapeOK g := by
  induction f generalizing st with
  | zero =>
    intro g hg
    simp [runF] at hg
  | succ n ih =>
    cases hs : stepOnce st with
    | halt =>
      rw [runF_of_halt hs]
      intro g hg
      simp at hg
    | cont out st' =>
      rw [runF_succ_cont hs]
      intro g hg
      rcases List.mem_append.mp hg with h1 | h2
      · exact (stepOnce_shape hin hs).1 g h1
      · exact ih st' ((stepOnce_shape hin hs).2) g h2

/-- Claim C9: `DlmsTinetzFrame.payload` decrypts the accumulated ciphertext
with AES-GCM under the configured key and the nonce formed as the system
title concatenated with the frame counter (by definition of `payload`); for
every frame the reader stores or emits the title is 8 bytes and the counter
4 bytes, so that nonce is 12 bytes; and for any keystream whatsoever —
i.e. regardless of whether the key is right or the ciphertext intact — the
plaintext has exactly the length of the ciphertext and is produced without
any failure signal (`payload` is total; no authentication tag is checked). -/
theorem payload_gcm_properties :
    (∀ (ks : List Nat → List Nat → Nat → Nat) (g : DlmsTinetzFrame),
      (g.payload ks).length = g.frameData.length) ∧
    (∀ (f : Nat) (st : ReaderState),
      (∀ g, st.frame = some g → g.systemTitle.length = 8 ∧ g.frameCounter.length = 4) →
      ∀ g ∈ (runF f st).1,
        (g.systemTitle ++ g.frameCounter).length = 12) := by
  constructor
  · intro ks g
    simp [DlmsTinetzFrame.payload, gcmDecrypt]
  · intro f st hin g hg
    have hs := runF_shape f st hin g hg
    simp only [List.length_append, hs.1, hs.2]

/-- Witness for C9: the frame emitted from `goodFrame` has a 12-byte nonce,
and its payload under a zero keystream has the ciphertext's length. -/
theorem payload_gcm_properties_witness :
    (emittedGood.payload (fun _ _ _ => 0)).length = emittedGood.frameData.length ∧
    (emittedGood.systemTitle ++ emittedGood.frameCounter).length = 12 :=
  ⟨payload_gcm_properties.1 (fun _ _ _ => 0) emittedGood,
   payload_gcm_properties.2 28 ⟨[], AmsHan.goodFrame, none⟩
     (fun g hg => Option.noConfusion hg) emittedGood (by decide)⟩

/-! ## COSEM round-trip lemmas (C3, C4) -/

theorem parseObis_encode {obis : List Nat} (h : obis.length = 6) (rest : List Nat) :
    parseObis (octetStringTag :: 6 :: (obis ++ rest)) = some (obis, rest) := by
  simp only [parseObis]
  rw [if_pos ⟨trivial, trivial, by simp [h]⟩]
  rw [← h, List.take_left, List.drop_left]

theorem parseField_text (s rest : List Nat) :
    parseField (visibleStringTag :: s.length :: (s ++ rest)) = some (.text s, rest) := by
  simp [parseField, List.take_left, List.drop_left]

theorem parseSimpleElement_encode {obis : List Nat} (h6 : obis.length = 6)
    (s rest : List Nat) :
    parseSimpleElement ((ItemSpec.simpleText obis s).encode ++ rest)
      = some (⟨obis, .text s, 2⟩, rest) := by
  have he : (ItemSpec.simpleText obis s).encode ++ rest
      = octetStringTag :: 6 :: (obis ++ (visibleStringTag :: s.length :: (s ++ rest))) := by
    simp [ItemSpec.encode, List.append_assoc]
  rw [he]
  simp only [parseSimpleElement, parseObis_encode h6, parseField_text]

theorem parseSimpleElement_structEncode {obis raw : List Nat} {tag sc u : Nat}
    (rest : List Nat) :
    parseSimpleElement ((ItemSpec.structNum obis tag raw sc u).encode ++ rest) = none := by
  simp [ItemSpec.encode, parseSimpleElement, parseObis, structureTag, octetStringTag]

theorem parseStructElement_encode {obis raw : List Nat} {tag sc u : Nat}
    (h6 : obis.length = 6)
    (htag : (tag = doubleLongUnsignedTag ∧ raw.length = 4) ∨
      (tag = longTag ∧ raw.length = 2) ∨ (tag = longUnsignedTag ∧ raw.length = 2))
    (rest : List Nat) :
    parseStructElement ((ItemSpec.structNum obis tag raw sc u).encode ++ rest)
      = some ((ItemSpec.structNum obis tag raw sc u).toElement, rest) := by
  have he : (ItemSpec.structNum obis tag raw sc u).encode ++ rest
      = structureTag :: 2 :: (octetStringTag :: 6 ::
          (obis ++ (tag :: (raw ++ (structureTag :: 2 :: integerTag :: sc :: enumTag ::
            u :: rest))))) := by
    simp [ItemSpec.encode, List.append_assoc]
  rw [he]
  simp only [parseStructElement, if_true]
  rw [parseObis_encode h6]
  rcases htag with ⟨rfl, hlen⟩ | ⟨rfl, hlen⟩ | ⟨rfl, hlen⟩
  · obtain ⟨b1, b2, b3, b4, rfl⟩ : ∃ b1 b2 b3 b4, raw = [b1, b2, b3, b4] := by
      rcases raw with _ | ⟨b1, _ | ⟨b2, _ | ⟨b3, _ | ⟨b4, _ | ⟨b5, t⟩⟩⟩⟩⟩ <;>
        simp only [List.length_nil, List.length_cons] at hlen
      all_goals first
      | omega
      | exact ⟨b1, b2, b3, b4, rfl⟩
    simp [parseScalerUnit, ItemSpec.toElement, doubleLongUnsignedTag, visibleStringTag,
      octetStringTag, longTag, longUnsignedTag, structureTag, integerTag, enumTag, beNat]
  · obtain ⟨b1, b2, rfl⟩ : ∃ b1 b2, raw = [b1, b2] := by
      rcases raw with _ | ⟨b1, _ | ⟨b2, _ | ⟨b3, t⟩⟩⟩ <;>
        simp only [List.length_nil, List.length_cons] at hlen
      all_goals first
      | omega
      | exact ⟨b1, b2, rfl⟩
    simp [parseScalerUnit, ItemSpec.toElement, doubleLongUnsignedTag, visibleStringTag,
      octetStringTag, longTag, longUnsignedTag, structureTag, integerTag, enumTag, beNat]
  · obtain ⟨b1, b2, rfl⟩ : ∃ b1 b2, raw = [b1, b2] := by
      rcases raw with _ | ⟨b1, _ | ⟨b2, _ | ⟨b3, t⟩⟩⟩ <;>
        simp only [List.length_nil, List.length_cons] at hlen
      all_goals first
      | omega
      | exact ⟨b1, b2, rfl⟩
    simp [parseScalerUnit, ItemSpec.toElement, doubleLongUnsignedTag, visibleStringTag,
      octetStringTag, longTag, longUnsignedTag, structureTag, integerTag, enumTag, beNat]

theorem parseElement_nil : parseElement [] = none := rfl

theorem parseElement_encode {it : ItemSpec} (hw : it.wellFormed) (rest : List Nat) :
    parseElement (it.encode ++ rest) = some (it.toElement, rest) := by
  cases it with
  | simpleText obis s =>
    obtain ⟨h6, _⟩ := hw
    simp only [parseElement, parseSimpleElement_encode h6 s rest, ItemSpec.toElement]
  | structNum obis tag raw sc u =>
    obtain ⟨h6, _, _, htag⟩ := hw
    simp only [parseElement, parseSimpleElement_structEncode rest,
      parseStructElement_encode h6 htag rest]

theorem parseElementsF_encode : ∀ (items : List ItemSpec) (fuel : Nat),
    (∀ it ∈ items, it.wellFormed) → (encodeItems items).length ≤ fuel →
    parseElementsF fuel (encodeItems items) = (items.map ItemSpec.toElement, []) := by
  intro items
  induction items with
  | nil =>
    intro fuel _ _
    cases fuel with
    | zero => rfl
    | succ f => simp [parseElementsF, encodeItems, parseElement_nil]
  | cons it its ih =>
    intro fuel hw hlen
    have hpos : 0 < it.encode.length := by cases it <;> simp [ItemSpec.encode]
    have hflat : encodeItems (it :: its) = it.encode ++ encodeItems its := by
      simp [encodeItems]
    rw [hflat] at hlen ⊢
    simp only [List.length_append] at hlen
    cases fuel with
    | zero => omega
    | succ f =>
      simp only [parseElementsF, parseElement_encode (hw it (by simp)) (encodeItems its)]
      rw [ih f (fun x hx => hw x (by simp [hx])) (by omega)]
      simp

theorem toElement_cnt_eq_weight :
    ObisElement.cnt ∘ ItemSpec.toElement = ItemSpec.weight := by
  funext it
  cases it <;> rfl

/-- Claim C3: decoding a notification body built from well-formed items
fails as a decode failure — never a silently truncated result — if and only
if the declared 1-byte field count does not equal the sum of the parsed
items' structural weights (2 for a simple element, 1 for a structured
element); on success all items are returned. -/
theorem notification_body_count_check (n : Nat) (items : List ItemSpec)
    (hw : ∀ it ∈ items, it.wellFormed) :
    (NotificationBodyObisElements (structureTag :: n :: encodeItems items)
        = some (items.map ItemSpec.toElement)
      ↔ n = (items.map ItemSpec.weight).sum) ∧
    (n ≠ (items.map ItemSpec.weight).sum →
      NotificationBodyObisElements (structureTag :: n :: encodeItems items) = none) := by
  have hparse := parseElementsF_encode items (encodeItems items).length hw (le_refl _)
  have hsum : ((items.map ItemSpec.toElement).map ObisElement.cnt).sum
      = (items.map ItemSpec.weight).sum := by
    rw [List.map_map, toElement_cnt_eq_weight]
  simp only [NotificationBodyObisElements, if_pos rfl, hparse, hsum]
  by_cases hn : n = (items.map ItemSpec.weight).sum
  · simp [hn]
  · simp [hn]

/-- Witness for C3: one structured item (weight 1); declared count 1 decodes
to exactly that item, declared count 2 is rejected. -/
theorem notification_body_count_check_witness :
    (NotificationBodyObisElements (structureTag :: 1 ::
        encodeItems [ItemSpec.structNum [1, 0, 1, 8, 0, 255] doubleLongUnsignedTag
          [0, 0, 9, 46] 255 30])
      = some ([ItemSpec.structNum [1, 0, 1, 8, 0, 255] doubleLongUnsignedTag
          [0, 0, 9, 46] 255 30].map ItemSpec.toElement)) ∧
    NotificationBodyObisElements (structureTag :: 2 ::
        encodeItems [ItemSpec.structNum [1, 0, 1, 8, 0, 255] doubleLongUnsignedTag
          [0, 0, 9, 46] 255 30])
      = none := by
  have hw : ∀ it ∈ [ItemSpec.structNum [1, 0, 1, 8, 0, 255] doubleLongUnsignedTag
      [0, 0, 9, 46] 255 30], it.wellFormed := by
    intro it hit
    simp only [List.mem_singleton] at hit
    subst hit
    exact ⟨by decide, by decide, by decide, Or.inl ⟨rfl, by decide⟩⟩
  exact ⟨(notification_body_count_check 1 _ hw).1.mpr (by decide),
    (notification_body_count_check 2 _ hw).2 (by decide)⟩

/-- Claim C4: for a structured element with a numeric content type
(double-long-unsigned, long, long-unsigned), the exposed value equals the
raw unscaled integer (read big endian per the tag's width, two's complement
for `long`) multiplied by 10 raised to the signed scale exponent from the
trailing scaler-and-unit sub-structure. -/
theorem struct_element_scaled_value (obis raw : List Nat) (tag sc u : Nat)
    (rest : List Nat) (h6 : obis.length = 6)
    (htag : (tag = doubleLongUnsignedTag ∧ raw.length = 4) ∨
      (tag = longTag ∧ raw.length = 2) ∨ (tag = longUnsignedTag ∧ raw.length = 2)) :
    parseStructElement ((ItemSpec.structNum obis tag raw sc u).encode ++ rest)
      = some (⟨obis,
          CosemValue.num ((if tag = longTag then (toSigned16 (beNat raw) : ℚ)
            else (beNat raw : ℚ)) * 10 ^ toSigned8 sc), 1⟩, rest) := by
  rw [parseStructElement_encode h6 htag rest]
  rfl

/-- Witness for C4 at the spec's example: unscaled `2350`
(bytes `00 00 09 2E`) with scale byte `0xFF` (= `-1`) decodes to
`2350 * 10 ^ (-1) = 235`. -/
theorem struct_element_scaled_value_witness :
    parseStructElement ((ItemSpec.structNum [1, 0, 1, 8, 0, 255] doubleLongUnsignedTag
        [0, 0, 9, 46] 255 30).encode ++ [])
      = some (⟨[1, 0, 1, 8, 0, 255],
          CosemValue.num ((if doubleLongUnsignedTag = longTag then
            (toSigned16 (beNat [0, 0, 9, 46]) : ℚ) else (beNat [0, 0, 9, 46] : ℚ))
            * 10 ^ toSigned8 255), 1⟩, []) ∧
    ((if doubleLongUnsignedTag = longTag then (toSigned16 (beNat [0, 0, 9, 46]) : ℚ)
      else (beNat [0, 0, 9, 46] : ℚ)) * 10 ^ toSigned8 255) = (235 : ℚ) := by
  constructor
  · exact struct_element_scaled_value [1, 0, 1, 8, 0, 255] [0, 0, 9, 46]
      doubleLongUnsignedTag 255 30 [] (by decide) (Or.inl ⟨rfl, by decide⟩)
  · have h1 : (if doubleLongUnsignedTag = longTag then
        (toSigned16 (beNat [0, 0, 9, 46]) : ℚ) else (beNat [0, 0, 9, 46] : ℚ))
        = (2350 : ℚ) := by
      rw [if_neg (by decide)]
      norm_num [beNat]
    have h2 : toSigned8 255 = (-1 : Int) := by decide
    rw [h1, h2]
    norm_num

end AmsHan
